import Mathlib

/-!
Verification development for the smb-rs SMB2/SMB3 client core.

This file shallowly embeds the wire codec and session logic of the
repository (crates smb-dtyp, smb-fscc, smb-msg, smb) in Lean 4 and proves
properties of the embedded definitions.  Bytes are modelled as natural
numbers below 256, byte streams as lists, machine integers as naturals
reduced modulo powers of two where the source relies on wrap-around, and
fallible decoding as Option-valued functions.
-/

set_option maxRecDepth 4000

namespace SmbRs

/-! ## Byte-level helpers (little-endian integer encodings, stream reads) -/

/-- Little-endian bytes of a 16-bit value. -/
def u16le (n : Nat) : List Nat := [n % 256, n / 2 ^ 8 % 256]

/-- Little-endian bytes of a 32-bit value. -/
def u32le (n : Nat) : List Nat :=
  [n % 256, n / 2 ^ 8 % 256, n / 2 ^ 16 % 256, n / 2 ^ 24 % 256]

/-- Little-endian bytes of a 64-bit value. -/
def u64le (n : Nat) : List Nat := u32le n ++ u32le (n / 2 ^ 32)

/-- Little-endian bytes of a 128-bit value. -/
def u128le (n : Nat) : List Nat := u64le n ++ u64le (n / 2 ^ 64)

/-- Value of a little-endian byte list. -/
def leVal (bs : List Nat) : Nat := bs.foldr (fun b acc => b + 256 * acc) 0

/-- Reads `n` bytes at position `pos`; fails when the stream is too short
(binrw returns an unexpected-eof error there). -/
def readBytes (data : List Nat) (pos n : Nat) : Option (List Nat) :=
  if pos + n ≤ data.length then some ((data.drop pos).take n) else none

/-- Reads a `w`-byte little-endian value. -/
def readLe (data : List Nat) (pos w : Nat) : Option Nat :=
  (readBytes data pos w).map leVal

/-- Reads one byte. -/
def readU8 (data : List Nat) (pos : Nat) : Option Nat := readLe data pos 1

/-- Reads a little-endian 16-bit value. -/
def readU16 (data : List Nat) (pos : Nat) : Option Nat := readLe data pos 2

/-- Reads a little-endian 32-bit value. -/
def readU32 (data : List Nat) (pos : Nat) : Option Nat := readLe data pos 4

/-- Reads a sequence of little-endian fields of the given byte widths,
returning their values in order. -/
def readFieldsGo (data : List Nat) : Nat → List Nat → Option (List Nat)
  | _, [] => some []
  | pos, w :: ws => do
    let v ← readLe data pos w
    (readFieldsGo data (pos + w) ws).map (v :: ·)

/-! ## MS-DTYP 2.4.5 ACL (crates/smb-dtyp/src/security/acl.rs) -/

/-- Comparison of booleans as in Rust `bool::cmp`: `false < true`. -/
def cmpBool (a b : Bool) : Ordering :=
  if a = b then Ordering.eq else if a then Ordering.gt else Ordering.lt

/-- An access-control entry.  Modelled from the spec: the ACE structure
itself (its flags bitfield and tagged value) lives in the crate's `ace`
module, which is not part of the sources here; `acl.rs` observes an ACE
only through `ace_flags.inherited()` and `value.is_access_allowed()`, so
the model keeps those two booleans and folds every other ACE datum
(access mask, SID, remaining flag bits, ACE kind payload) into the opaque
field `rest`. -/
structure ACE where
  inherited : Bool
  is_access_allowed : Bool
  rest : Nat
deriving DecidableEq, Repr

/-- An access-control list, as in `acl.rs` (the size/count header fields
are computed at encode time and are not part of the in-memory value). -/
structure ACL where
  acl_revision : Nat
  ace : List ACE
deriving DecidableEq, Repr

/-- Sorting function for ACEs (`ACL::sort_aces_by`). -/
def sort_aces_by (a b : ACE) : Ordering :=
  if a.inherited ≠ b.inherited then cmpBool a.inherited b.inherited
  else if a.inherited then Ordering.eq
  else cmpBool a.is_access_allowed b.is_access_allowed

/-- Stable insertion used to model Rust's stable `sort_by`: an element is
placed before the first element it does not compare greater than. -/
def insertAceSorted (x : ACE) : List ACE → List ACE
  | [] => [x]
  | y :: ys =>
    if sort_aces_by x y = Ordering.gt then y :: insertAceSorted x ys
    else x :: y :: ys

/-- Stable sort by `sort_aces_by`, modelling `self.ace.sort_by(...)` in
`ACL::order_aces` (Rust's `sort_by` is a stable sort; any stable sorting
algorithm produces this same output). -/
def sortAcesStable : List ACE → List ACE
  | [] => []
  | x :: xs => insertAceSorted x (sortAcesStable xs)

/-- Orders the ACEs in the ACL according to the standard order
(`ACL::order_aces`). -/
def ACL.order_aces (acl : ACL) : ACL :=
  ACL.mk acl.acl_revision (sortAcesStable acl.ace)

/-- Checks adjacent pairs against a boolean relation, modelling
`slice::is_sorted_by`. -/
def chainLe (le : ACE → ACE → Bool) : List ACE → Bool
  | [] => true
  | [_] => true
  | a :: b :: rest => le a b && chainLe le (b :: rest)

/-- Whether ACE ordering rules apply to this ACL (`ACL::is_ace_sorted`). -/
def ACL.is_ace_sorted (acl : ACL) : Bool :=
  chainLe (fun a b => (sort_aces_by a b).isLE) acl.ace

/-- Insert an ACE into the ACL, maintaining the correct order
(`ACL::insert_ace`: push, then `order_aces`). -/
def ACL.insert_ace (acl : ACL) (a : ACE) : ACL :=
  ACL.order_aces (ACL.mk acl.acl_revision (acl.ace ++ [a]))

/-- Explicit (non-inherited) access-denied ACEs: the group `order_aces`
puts first. -/
def isExplicitDenied (a : ACE) : Bool := !a.inherited && !a.is_access_allowed

/-- Explicit access-allowed ACEs: the middle group. -/
def isExplicitAllowed (a : ACE) : Bool := !a.inherited && a.is_access_allowed

/-- Inherited ACEs: the trailing group, kept in original order. -/
def isInheritedAce (a : ACE) : Bool := a.inherited

/-! ## Compression algorithms and chained compression payload headers
(crates/smb-msg/src/compressed.rs, negotiate.rs) -/

/-- Compression algorithm identifiers, MS-SMB2 2.2.3.1.3
(enum `CompressionAlgorithm`, `#[brw(repr(u16))]`). -/
inductive CompressionAlgorithm
  | none
  | lznt1
  | lz77
  | lz77huffman
  | patternV1
  | lz4
deriving DecidableEq, Repr

/-- Wire code of a compression algorithm. -/
def CompressionAlgorithm.toU16 : CompressionAlgorithm → Nat
  | .none => 0x0000
  | .lznt1 => 0x0001
  | .lz77 => 0x0002
  | .lz77huffman => 0x0003
  | .patternV1 => 0x0004
  | .lz4 => 0x0005

/-- Decode of a compression-algorithm code; values outside the catalog are
a decode error for the `repr(u16)` enum. -/
def CompressionAlgorithm.fromU16 : Nat → Option CompressionAlgorithm
  | 0x0000 => some .none
  | 0x0001 => some .lznt1
  | 0x0002 => some .lz77
  | 0x0003 => some .lz77huffman
  | 0x0004 => some .patternV1
  | 0x0005 => some .lz4
  | _ => Option.none

/-- Whether the algorithm requires an `OriginalPayloadSize` field
(`CompressionAlgorithm::original_size_required`). -/
def CompressionAlgorithm.original_size_required : CompressionAlgorithm → Bool
  | .lznt1 => true
  | .lz77 => true
  | .lz77huffman => true
  | .lz4 => true
  | _ => false

/-- Additional bytes counted in the length field when `OriginalPayloadSize`
is present (`add_original_size_to_total_length`). -/
def add_original_size_to_total_length (algo : CompressionAlgorithm) : Nat :=
  if algo.original_size_required then 4 else 0

/-- SMB2 compression chained payload header, MS-SMB2 2.2.42.2.1
(struct `CompressedChainedItem`; the `length` field is a position marker
recomputed on encode and dropped on decode). -/
structure CompressedChainedItem where
  compression_algorithm : CompressionAlgorithm
  flags : Nat
  original_size : Option Nat
  payload_data : List Nat
deriving DecidableEq, Repr

/-- Encodes a `CompressedChainedItem`.  The write assert requires
`original_size.is_none() ^ original_size_required()`; the length marker is
patched to the payload size plus the original-size bytes
(`PosMarker::write_size_plus`). -/
def writeCompressedChainedItem (it : CompressedChainedItem) : Option (List Nat) :=
  if xor it.original_size.isNone it.compression_algorithm.original_size_required then
    some (u16le it.compression_algorithm.toU16 ++ u16le it.flags ++
      u32le (it.payload_data.length +
        add_original_size_to_total_length it.compression_algorithm) ++
      (match it.original_size with
        | some v => u32le v
        | Option.none => []) ++
      it.payload_data)
  else Option.none

/-- Decodes a `CompressedChainedItem` at `pos`.  The payload is read from a
`take_seek(length - add)` window with `until_eof`, so it is truncated to
the bytes actually available; the subtraction is the source's `u64`
subtraction, which wraps. -/
def readCompressedChainedItem (data : List Nat) (pos : Nat) :
    Option (CompressedChainedItem × Nat) :=
  match readU16 data pos with
  | Option.none => Option.none
  | some algRaw =>
  match CompressionAlgorithm.fromU16 algRaw with
  | Option.none => Option.none
  | some alg =>
  match readU16 data (pos + 2) with
  | Option.none => Option.none
  | some flags =>
  match readU32 data (pos + 4) with
  | Option.none => Option.none
  | some len =>
  match (if alg.original_size_required then
      (readU32 data (pos + 8)).map (fun v => (some v, pos + 12))
    else
      some ((Option.none : Option Nat), pos + 8)) with
  | Option.none => Option.none
  | some origStart =>
    let limit := (len + 2 ^ 64 - add_original_size_to_total_length alg) % 2 ^ 64
    let payload := (data.drop origStart.2).take limit
    some (⟨alg, flags, origStart.1, payload⟩, origStart.2 + payload.length)

/-! ## Negotiate contexts (crates/smb-msg/src/negotiate.rs) -/

/-- Rounds `pos` up to a multiple of `a` (binrw `align_before`). -/
def alignUp (pos a : Nat) : Nat := pos + (a - pos % a) % a

/-- Negotiate context type identifiers, MS-SMB2 2.2.3.1
(enum `NegotiateContextType`). -/
inductive NegotiateContextType
  | preauthIntegrityCapabilities
  | encryptionCapabilities
  | compressionCapabilities
  | netnameNegotiateContextId
  | transportCapabilities
  | rdmaTransformCapabilities
  | signingCapabilities
deriving DecidableEq, Repr

/-- Decode of a negotiate-context type code.  The catalog is exactly the
seven variants of the `repr(u16)` enum; any other code is a decode
error. -/
def NegotiateContextType.fromU16 : Nat → Option NegotiateContextType
  | 0x0001 => some .preauthIntegrityCapabilities
  | 0x0002 => some .encryptionCapabilities
  | 0x0003 => some .compressionCapabilities
  | 0x0005 => some .netnameNegotiateContextId
  | 0x0006 => some .transportCapabilities
  | 0x0007 => some .rdmaTransformCapabilities
  | 0x0008 => some .signingCapabilities
  | _ => Option.none

/-- Negotiate context values (enum `NegotiateContextValue`); enum codes
carried in lists are kept as their validated wire values. -/
inductive NegotiateContextValue
  | preauth (hash_algorithms : List Nat) (salt : List Nat)
  | encryption (ciphers : List Nat)
  | compression (flags : Nat) (compression_algorithms : List CompressionAlgorithm)
  | netname (code_units : List Nat)
  | transport (flags : Nat)
  | rdma (transforms : List Nat)
  | signing (signing_algorithms : List Nat)
deriving DecidableEq, Repr

/-- Reads `n` little-endian 16-bit values, each validated against an enum
catalog (a value outside the catalog is a decode error). -/
def readU16List (valid : Nat → Bool) (data : List Nat) :
    Nat → Nat → Option (List Nat)
  | _, 0 => some []
  | pos, n + 1 => do
    let v ← readU16 data pos
    if valid v then (readU16List valid data (pos + 2) n).map (v :: ·)
    else Option.none

/-- Reads consecutive 16-bit code units until the window is exhausted
(binrw `until_eof` over the `take_seek` window); a trailing odd byte is a
decode error. -/
def readWideUnits (window : List Nat) : Nat → Option (List Nat)
  | 0 => some []
  | 1 => Option.none
  | n + 2 =>
    match window.drop (window.length - (n + 2)) with
    | b0 :: b1 :: _ => (readWideUnits window n).map (fun r => (b0 + 256 * b1) :: r)
    | _ => Option.none

/-- Parses the payload of a negotiate context of type `t` inside the
`take_seek(data_length)` window; returns the value and the number of bytes
consumed inside the window. -/
def readNegotiateContextValue (t : NegotiateContextType) (window : List Nat) :
    Option (NegotiateContextValue × Nat) :=
  match t with
  | .preauthIntegrityCapabilities => do
    let cnt ← readU16 window 0
    let saltLen ← readU16 window 2
    let algs ← readU16List (fun v => v = 0x01) window 4 cnt
    let salt ← readBytes window (4 + 2 * cnt) saltLen
    some (.preauth algs salt, 4 + 2 * cnt + saltLen)
  | .encryptionCapabilities => do
    let cnt ← readU16 window 0
    let ciphers ← readU16List (fun v => 1 ≤ v ∧ v ≤ 4) window 2 cnt
    some (.encryption ciphers, 2 + 2 * cnt)
  | .compressionCapabilities => do
    let cnt ← readU16 window 0
    let _ ← readU16 window 2
    let flags ← readU32 window 4
    let raw ← readU16List (fun v => v ≤ 5) window 8 cnt
    let algs := raw.filterMap CompressionAlgorithm.fromU16
    some (.compression flags algs, 8 + 2 * cnt)
  | .netnameNegotiateContextId =>
    (readWideUnits window window.length).map (fun us => (.netname us, window.length))
  | .transportCapabilities =>
    (readU32 window 0).map (fun f => (.transport f, 4))
  | .rdmaTransformCapabilities => do
    let cnt ← readU16 window 0
    let _ ← readU16 window 2
    let _ ← readU32 window 4
    let ts ← readU16List (fun v => v ≤ 2) window 8 cnt
    some (.rdma ts, 8 + 2 * cnt)
  | .signingCapabilities => do
    let cnt ← readU16 window 0
    let algs ← readU16List (fun v => v ≤ 2) window 2 cnt
    some (.signing algs, 2 + 2 * cnt)

/-- A single negotiate context item (struct `NegotiateContext`). -/
structure NegotiateContext where
  context_type : NegotiateContextType
  data : NegotiateContextValue
deriving DecidableEq, Repr

/-- Decodes one negotiate context: align to 8, read the type (a code
outside the catalog is a decode error), the data length, a reserved
`u32`, then the payload keyed by the type inside a `take_seek` window. -/
def readNegotiateContext (data : List Nat) (pos : Nat) :
    Option (NegotiateContext × Nat) := do
  let p := alignUp pos 8
  let tRaw ← readU16 data p
  let t ← NegotiateContextType.fromU16 tRaw
  let dataLength ← readU16 data (p + 2)
  let _ ← readU32 data (p + 4)
  let window := (data.drop (p + 8)).take dataLength
  let (v, consumed) ← readNegotiateContextValue t window
  some (⟨t, v⟩, p + 8 + consumed)

/-- Decodes `n` negotiate contexts in sequence
(binrw `count = negotiate_context_count`). -/
def readNegotiateContexts (data : List Nat) :
    Nat → Nat → Option (List NegotiateContext × Nat)
  | pos, 0 => some ([], pos)
  | pos, n + 1 => do
    let (c, pos2) ← readNegotiateContext data pos
    let (rest, pos3) ← readNegotiateContexts data pos2 n
    some (c :: rest, pos3)

/-! ## Negotiate response (crates/smb-msg/src/negotiate.rs) -/

/-- Dialects of the SMB negotiate response, MS-SMB2 2.2.4
(enum `NegotiateDialect`). -/
inductive NegotiateDialect
  | smb0202
  | smb021
  | smb030
  | smb0302
  | smb0311
  | smb02Wildcard
deriving DecidableEq, Repr

/-- Decode of a negotiate-response dialect code. -/
def NegotiateDialect.fromU16 : Nat → Option NegotiateDialect
  | 0x0202 => some .smb0202
  | 0x0210 => some .smb021
  | 0x0300 => some .smb030
  | 0x0302 => some .smb0302
  | 0x0311 => some .smb0311
  | 0x02FF => some .smb02Wildcard
  | _ => Option.none

/-- SMB2 NEGOTIATE response (struct `NegotiateResponse`). -/
structure NegotiateResponse where
  security_mode : Nat
  dialect_revision : NegotiateDialect
  server_guid : List Nat
  capabilities : Nat
  max_transact_size : Nat
  max_read_size : Nat
  max_write_size : Nat
  system_time : Nat
  server_start_time : Nat
  buffer : List Nat
  negotiate_context_list : Option (List NegotiateContext)
deriving DecidableEq, Repr

/-- Decodes an SMB2 NEGOTIATE response whose body starts at `pos` of
`data` (offsets in the body are absolute stream positions).  It asserts
`_structure_size == 65` and, as in the source, that the context count is
positive exactly for dialect 3.1.1; the security buffer and the contexts
are fetched through absolute `seek_before` offsets. -/
def readNegotiateResponse (data : List Nat) (pos : Nat) :
    Option NegotiateResponse := do
  let hd ← readFieldsGo data pos [2, 2, 2, 2]
  match hd with
  | [structureSize, securityMode, dRaw, count] => do
    guard (structureSize = 65)
    let d ← NegotiateDialect.fromU16 dRaw
    guard (if d = NegotiateDialect.smb0311 then 0 < count else count = 0)
    let guid ← readBytes data (pos + 8) 16
    let body ← readFieldsGo data (pos + 24) [4, 4, 4, 4, 8, 8, 2, 2, 4]
    match body with
    | [caps, maxT, maxR, maxW, sysT, startT, secOff, secLen, ctxOff] => do
      let buffer ← readBytes data secOff secLen
      let ctxs ←
        if d = NegotiateDialect.smb0311 then
          (readNegotiateContexts data ctxOff count).map (fun r => some r.1)
        else
          some (Option.none : Option (List NegotiateContext))
      some (NegotiateResponse.mk securityMode d guid caps maxT maxR maxW sysT
        startT buffer ctxs)
    | _ => Option.none
  | _ => Option.none

/-! ## Create context name dispatch (crates/smb-msg/src/create.rs) -/

/-- Create-context kinds, from the `make_create_context!` catalog. -/
inductive CreateContextType
  | exta
  | secd
  | dhnq
  | dhnc
  | alsi
  | mxac
  | twrp
  | qfid
  | rqls
  | dh2q
  | dh2c
  | appinstid
  | appinstver
  | svhdxopendev
deriving DecidableEq, Repr

/-- Name bytes of each create-context kind (ASCII tags and GUID names from
the `make_create_context!` invocation). -/
def CreateContextType.name : CreateContextType → List Nat
  | .exta => [0x45, 0x78, 0x74, 0x41]
  | .secd => [0x53, 0x65, 0x63, 0x44]
  | .dhnq => [0x44, 0x48, 0x6E, 0x51]
  | .dhnc => [0x44, 0x48, 0x4E, 0x63]
  | .alsi => [0x41, 0x6C, 0x53, 0x69]
  | .mxac => [0x4D, 0x78, 0x41, 0x63]
  | .twrp => [0x54, 0x57, 0x72, 0x70]
  | .qfid => [0x51, 0x46, 0x69, 0x64]
  | .rqls => [0x52, 0x71, 0x4C, 0x73]
  | .dh2q => [0x44, 0x48, 0x32, 0x51]
  | .dh2c => [0x44, 0x48, 0x32, 0x43]
  | .appinstid =>
    [0x45, 0xBC, 0xA6, 0x6A, 0xEF, 0xA7, 0xF7, 0x4A,
     0x90, 0x08, 0xFA, 0x46, 0x2E, 0x14, 0x4D, 0x74]
  | .appinstver =>
    [0xB9, 0x82, 0xD0, 0xB7, 0x3B, 0x56, 0x07, 0x4F,
     0xA0, 0x7B, 0x52, 0x4A, 0x81, 0x16, 0xA0, 0x10]
  | .svhdxopendev =>
    [0x9C, 0xCB, 0xCF, 0x9E, 0x04, 0xC1, 0xE6, 0x43,
     0x98, 0x0E, 0x15, 0x8D, 0xA1, 0xF6, 0xEC, 0x83]

/-- All create-context kinds, in catalog order. -/
def createContextCatalog : List CreateContextType :=
  [.exta, .secd, .dhnq, .dhnc, .alsi, .mxac, .twrp, .qfid, .rqls,
   .dh2q, .dh2c, .appinstid, .appinstver, .svhdxopendev]

/-- Looks a create-context name up in the catalog
(`CreateContextType::from_name`). -/
def CreateContextType.from_name (n : List Nat) : Option CreateContextType :=
  createContextCatalog.find? (fun t => t.name = n)

/-- Decode dispatch of the `CreateContextRequestData` enum: each variant
pre-asserts that the record name equals one catalog name, then parses its
typed payload; with all names distinct this is a lookup by name followed
by the payload parse for the found kind, and a name outside the catalog
fails every pre-assert.  The per-kind payload parse (one binrw struct per
variant) is the parameter `payloadOf`. -/
def readCreateContextRequestData {γ : Type} (payloadOf : CreateContextType → Option γ)
    (nameBytes : List Nat) : Option γ :=
  (CreateContextType.from_name nameBytes).bind payloadOf

/-! ## Chained variable-length lists (crates/smb-fscc/src/chained_list.rs)

A `ChainedItemList<T, OFFSET_PAD>` is generic in `T`; the embedding takes
the element codec as parameters `wr` (plain byte emission) and `rd`
(read an element value from a stream position). -/

/-- Encodes a chained item list whose first entry starts at stream
position `p` (`ChainedItemList::write_options`): every entry is a `u32`
next-entry offset and the element bytes; each non-last entry is followed
by zero padding up to `pad` alignment and its offset marker is patched to
the distance to the next entry, while the last entry keeps offset `0` and
is not padded. -/
def writeChainedGo {α : Type} (wr : α → List Nat) (pad : Nat) :
    List α → Nat → List Nat
  | [], _ => []
  | [x], _ => u32le 0 ++ wr x
  | x :: y :: rest, p =>
    let body := wr x
    let padding := (pad - (p + 4 + body.length) % pad) % pad
    let next := 4 + body.length + padding
    u32le next ++ body ++ List.replicate padding 0 ++
      writeChainedGo wr pad (y :: rest) (p + next)

/-- Encodes a chained item list from stream position 0. -/
def writeChainedItemList {α : Type} (wr : α → List Nat) (pad : Nat)
    (values : List α) : List Nat :=
  writeChainedGo wr pad values 0

/-- Decode loop of `ChainedItemList::read_options`: at every entry start
the absolute position must be `pad`-aligned (misalignment is a fatal
error), then the `u32` next-entry offset and the element are read; a zero
offset ends the list, and a non-zero offset seeks to
`position_before + offset` for the next entry. -/
def readChainedGo {α : Type} (rd : List Nat → Nat → Option (α × Nat)) (pad : Nat)
    (data : List Nat) (pos : Nat) : Option (List α) :=
  if pos % pad ≠ 0 then Option.none
  else
    match h : readU32 data pos with
    | Option.none => Option.none
    | some off =>
      match rd data (pos + 4) with
      | Option.none => Option.none
      | some (item, _) =>
        if off = 0 then some [item]
        else (readChainedGo rd pad data (pos + off)).map (item :: ·)
termination_by data.length - pos
decreasing_by
  simp only [readU32, readLe, readBytes] at h
  split at h
  · omega
  · simp at h

/-- Decodes a chained item list (`ChainedItemList::read_options`): a
stream with no data left decodes to the empty list, otherwise the entry
loop runs from the current position. -/
def readChainedItemList {α : Type} (rd : List Nat → Nat → Option (α × Nat))
    (pad : Nat) (data : List Nat) (pos : Nat) : Option (List α) :=
  if pos = data.length then some [] else readChainedGo rd pad data pos

/-! ## SMB2 packet header (crates/smb-msg/src/header.rs) -/

/-- SMB2/SMB3 protocol command codes, MS-SMB2 2.2.1.2 (enum `Command`). -/
inductive Command
  | negotiate
  | sessionSetup
  | logoff
  | treeConnect
  | treeDisconnect
  | create
  | close
  | flush
  | read
  | write
  | lock
  | ioctl
  | cancel
  | echo
  | queryDirectory
  | changeNotify
  | queryInfo
  | setInfo
  | oplockBreak
  | serverToClientNotification
deriving DecidableEq, Repr

/-- Wire code of a command. -/
def Command.toU16 : Command → Nat
  | .negotiate => 0x0
  | .sessionSetup => 0x1
  | .logoff => 0x2
  | .treeConnect => 0x3
  | .treeDisconnect => 0x4
  | .create => 0x5
  | .close => 0x6
  | .flush => 0x7
  | .read => 0x8
  | .write => 0x9
  | .lock => 0xA
  | .ioctl => 0xB
  | .cancel => 0xC
  | .echo => 0xD
  | .queryDirectory => 0xE
  | .changeNotify => 0xF
  | .queryInfo => 0x10
  | .setInfo => 0x11
  | .oplockBreak => 0x12
  | .serverToClientNotification => 0x13

/-- Decode of a command code; values outside the `repr(u16)` enum are a
decode error. -/
def Command.fromU16 (n : Nat) : Option Command :=
  if n = 0x0 then some .negotiate
  else if n = 0x1 then some .sessionSetup
  else if n = 0x2 then some .logoff
  else if n = 0x3 then some .treeConnect
  else if n = 0x4 then some .treeDisconnect
  else if n = 0x5 then some .create
  else if n = 0x6 then some .close
  else if n = 0x7 then some .flush
  else if n = 0x8 then some .read
  else if n = 0x9 then some .write
  else if n = 0xA then some .lock
  else if n = 0xB then some .ioctl
  else if n = 0xC then some .cancel
  else if n = 0xD then some .echo
  else if n = 0xE then some .queryDirectory
  else if n = 0xF then some .changeNotify
  else if n = 0x10 then some .queryInfo
  else if n = 0x11 then some .setInfo
  else if n = 0x12 then some .oplockBreak
  else if n = 0x13 then some .serverToClientNotification
  else Option.none

/-- The `server_to_redir` bit of the `HeaderFlags` bitfield (bit 0). -/
def HeaderFlags.server_to_redir (flags : Nat) : Bool := flags.testBit 0

/-- The `async_command` bit of the `HeaderFlags` bitfield (bit 1). -/
def HeaderFlags.async_command (flags : Nat) : Bool := flags.testBit 1

/-- The `signed` bit of the `HeaderFlags` bitfield (bit 3). -/
def HeaderFlags.signed_flag (flags : Nat) : Bool := flags.testBit 3

/-- SMB2 packet header (struct `Header`, MS-SMB2 2.2.1.1/2.2.1.2); the
`flags` bitfield is kept as its raw 32-bit value. -/
structure Header where
  credit_charge : Nat
  status : Nat
  command : Command
  credit_request : Nat
  flags : Nat
  next_command : Nat
  message_id : Nat
  tree_id : Option Nat
  async_id : Option Nat
  session_id : Nat
  signature : Nat
deriving DecidableEq, Repr

/-- The header with its signature field zeroed. -/
def Header.zeroSignature (h : Header) : Header :=
  Header.mk h.credit_charge h.status h.command h.credit_request h.flags
    h.next_command h.message_id h.tree_id h.async_id h.session_id 0

/-- Magic bytes of a plain SMB2 message. -/
def headerMagic : List Nat := [0xfe, 0x53, 0x4d, 0x42]

/-- Encodes an SMB2 header: magic, `_structure_size = 64`, the numeric
fields, then either the reserved `u32` plus `tree_id` (sync form) or
`async_id` (async form), and finally `session_id` and `signature`.  The
write asserts `tree_id.is_some() != flags.async_command()` (equivalently
`tree_id.is_none() == flags.async_command()`); an absent option writes no
bytes, as binrw does for `None`. -/
def writeHeader (h : Header) : Option (List Nat) :=
  if h.tree_id.isSome = HeaderFlags.async_command h.flags then Option.none
  else
    some (headerMagic ++ u16le 64 ++ u16le h.credit_charge ++ u32le h.status ++
      u16le h.command.toU16 ++ u16le h.credit_request ++ u32le h.flags ++
      u32le h.next_command ++ u64le h.message_id ++
      (if HeaderFlags.async_command h.flags then
        match h.async_id with
        | some a => u64le a
        | Option.none => []
      else
        u32le 0 ++
        match h.tree_id with
        | some t => u32le t
        | Option.none => []) ++
      u64le h.session_id ++ u128le h.signature)

/-- Magic bytes of an encrypted SMB2 message. -/
def encryptedHeaderMagic : List Nat := [0xfd, 0x53, 0x4d, 0x42]

/-- SMB2 transform header (struct `EncryptedHeader`); the reserved `u16`
is written as zero and the flags `u16` as 1. -/
structure EncryptedHeader where
  signature : Nat
  nonce : List Nat
  original_message_size : Nat
  session_id : Nat
deriving DecidableEq, Repr

/-- Encodes the 52-byte transform header: magic, 16-byte signature,
16-byte nonce, original message size, reserved = 0, flags = 1,
session id. -/
def writeEncryptedHeader (h : EncryptedHeader) : List Nat :=
  encryptedHeaderMagic ++ u128le h.signature ++ h.nonce ++
    u32le h.original_message_size ++ u16le 0 ++ u16le 1 ++ u64le h.session_id

/-- The bytes used as AEAD associated data (`EncryptedHeader::aead_bytes`):
the serialized header with the leading `MAGIC_SIZE + SIGNATURE_SIZE = 20`
bytes stripped, keeping bytes 20 to 52. -/
def EncryptedHeader.aead_bytes (h : EncryptedHeader) : List Nat :=
  (writeEncryptedHeader h).drop 20

/-- Result of an AEAD encryption: ciphertext and authentication tag. -/
structure EncryptResult where
  ciphertext : List Nat
  signature : Nat
deriving DecidableEq, Repr

/-- Encrypts a message (`MessageEncryptor::encrypt_message`): builds the
transform header with a zero signature, calls the cipher with the
plaintext, the header's `aead_bytes` and the nonce, then places the
returned authentication tag into the header's signature field.  The AEAD
cipher itself and the random nonce generation live outside this module
and are passed in as `encrypt` and `nonce`. -/
def encrypt_message (encrypt : List Nat → List Nat → List Nat → EncryptResult)
    (message : List Nat) (session_id : Nat) (nonce : List Nat) :
    EncryptedHeader × List Nat :=
  let header0 : EncryptedHeader :=
    EncryptedHeader.mk 0 nonce (message.length % 2 ^ 32) session_id
  let r := encrypt message header0.aead_bytes nonce
  (EncryptedHeader.mk r.signature nonce (message.length % 2 ^ 32) session_id,
    r.ciphertext)

/-- Decrypts a message (`MessageDecryptor::decrypt_message`): the cipher
receives the ciphertext, the header's `aead_bytes`, the nonce and the
received signature. -/
def decrypt_message (decrypt : List Nat → List Nat → List Nat → Nat → Option (List Nat))
    (hdr : EncryptedHeader) (ciphertext : List Nat) : Option (List Nat) :=
  decrypt ciphertext hdr.aead_bytes hdr.nonce hdr.signature

/-! ## Security descriptor (crates/smb-dtyp/src/security/security_descriptor.rs)

The SID and ACL wire codecs are taken as parameters; the descriptor logic
itself (offsets, control bits, presence checks) is embedded from the
source. -/

/-- The `dacl_present` bit of `SecurityDescriptorControl` (bit 2). -/
def SecurityDescriptorControl.dacl_present (c : Nat) : Bool := c.testBit 2

/-- The `sacl_present` bit of `SecurityDescriptorControl` (bit 4). -/
def SecurityDescriptorControl.sacl_present (c : Nat) : Bool := c.testBit 4

/-- The `self_relative` bit of `SecurityDescriptorControl` (bit 15). -/
def SecurityDescriptorControl.self_relative (c : Nat) : Bool := c.testBit 15

/-- Security descriptor, MS-DTYP 2.4.6 (struct `SecurityDescriptor`),
generic over the SID and ACL value types. -/
structure SecurityDescriptorG (σ α : Type) where
  sbz1 : Nat
  control : Nat
  owner_sid : Option σ
  group_sid : Option σ
  sacl : Option α
  dacl : Option α

/-- Decodes a self-relative security descriptor at `pos`: revision must
be 1 and `control.self_relative()` must hold; each of owner, group, SACL
and DACL is read (sequentially, in this order) exactly when its offset
field is non-zero; after the SACL (respectively DACL) read the source
asserts that the offset being non-zero agrees with the
`sacl_present` (respectively `dacl_present`) control bit. -/
def readSecurityDescriptor {σ α : Type}
    (readSid : List Nat → Nat → Option (σ × Nat))
    (readAcl : List Nat → Nat → Option (α × Nat))
    (data : List Nat) (pos : Nat) : Option (SecurityDescriptorG σ α × Nat) :=
  match readFieldsGo data pos [1, 1, 2, 4, 4, 4, 4] with
  | some [revision, sbz1, control, offOwner, offGroup, offSacl, offDacl] =>
    if revision = 1 then
      if SecurityDescriptorControl.self_relative control = true then
        match (if offOwner ≠ 0 then
            (readSid data (pos + 20)).map (fun r => (some r.1, r.2))
          else some ((Option.none : Option σ), pos + 20)) with
        | Option.none => Option.none
        | some owner =>
        match (if offGroup ≠ 0 then
            (readSid data owner.2).map (fun r => (some r.1, r.2))
          else some ((Option.none : Option σ), owner.2)) with
        | Option.none => Option.none
        | some group =>
        match (if offSacl ≠ 0 then
            (readAcl data group.2).map (fun r => (some r.1, r.2))
          else some ((Option.none : Option α), group.2)) with
        | Option.none => Option.none
        | some sacl =>
        if decide (offSacl ≠ 0) = SecurityDescriptorControl.sacl_present control then
          match (if offDacl ≠ 0 then
              (readAcl data sacl.2).map (fun r => (some r.1, r.2))
            else some ((Option.none : Option α), sacl.2)) with
          | Option.none => Option.none
          | some dacl =>
          if decide (offDacl ≠ 0) = SecurityDescriptorControl.dacl_present control then
            some (SecurityDescriptorG.mk sbz1 control owner.1 group.1 sacl.1 dacl.1,
              dacl.2)
          else Option.none
        else Option.none
      else Option.none
    else Option.none
  | _ => Option.none

/-- Encodes a self-relative security descriptor: asserts
`control.self_relative()`, `sacl.is_some() == control.sacl_present()` and
`dacl.is_some() == control.dacl_present()`; offset markers are patched to
the position of each present component relative to the descriptor start
(`PosMarker::write_roff_b`) and stay zero for absent components. -/
def writeSecurityDescriptor {σ α : Type}
    (writeSid : σ → List Nat) (writeAcl : α → List Nat)
    (sd : SecurityDescriptorG σ α) : Option (List Nat) :=
  if SecurityDescriptorControl.self_relative sd.control = true ∧
      sd.sacl.isSome = SecurityDescriptorControl.sacl_present sd.control ∧
      sd.dacl.isSome = SecurityDescriptorControl.dacl_present sd.control then
    let ownerBytes := match sd.owner_sid with
      | some s => writeSid s
      | Option.none => []
    let groupBytes := match sd.group_sid with
      | some s => writeSid s
      | Option.none => []
    let saclBytes := match sd.sacl with
      | some a => writeAcl a
      | Option.none => []
    let daclBytes := match sd.dacl with
      | some a => writeAcl a
      | Option.none => []
    let offOwner := if sd.owner_sid.isSome then 20 else 0
    let offGroup := if sd.group_sid.isSome then 20 + ownerBytes.length else 0
    let offSacl :=
      if sd.sacl.isSome then 20 + ownerBytes.length + groupBytes.length else 0
    let offDacl :=
      if sd.dacl.isSome then
        20 + ownerBytes.length + groupBytes.length + saclBytes.length
      else 0
    some ([1, sd.sbz1 % 256] ++ u16le sd.control ++ u32le offOwner ++
      u32le offGroup ++ u32le offSacl ++ u32le offDacl ++
      ownerBytes ++ groupBytes ++ saclBytes ++ daclBytes)
  else Option.none

/-! ## Session binding (crates/smb/src/session.rs) -/

/-- Session states.  Modelled from the spec: the `SessionInfo` state
machine lives in the crate's `session/state.rs`, which is not among the
sources here; the spec gives the states Authenticating, Ready, Expired,
Invalidated. -/
inductive SessionState
  | authenticating
  | ready
  | expired
  | invalidated
deriving DecidableEq, Repr

/-- Observable session facts used by `Session::bind`.  Modelled from the
spec: `is_ready` tests the Ready state and `allow_unsigned` holds for
guest/anonymous sessions or ones that allow unsigned traffic; both
accessors are defined in the missing `session/state.rs`. -/
structure SessionInfo where
  state : SessionState
  allow_unsigned : Bool
deriving DecidableEq, Repr

/-- Whether the session is in the Ready state. -/
def SessionInfo.is_ready (s : SessionInfo) : Bool := s.state = SessionState.ready

/-- Per-connection facts compared by `Session::bind`. -/
structure ConnectionInfo where
  dialect_rev : Nat
  client_guid : Nat
deriving DecidableEq, Repr

/-- Distinct `InvalidState` errors returned by `Session::bind`, one per
early-return in the source. -/
inductive BindError
  | differentDialect
  | differentClientGuid
  | notReady
  | allowsUnsigned
deriving DecidableEq, Repr

/-- Binding an existing session to a new connection (`Session::bind`):
refuses (in source order) a dialect mismatch, a client GUID mismatch, a
source session that is not ready, and a source session that allows
unsigned messages; only then the new channel is created and its id
returned. -/
def Session.bind (selfConn newConn : ConnectionInfo) (session : SessionInfo)
    (newChannelId : Nat) : Except BindError Nat :=
  if selfConn.dialect_rev ≠ newConn.dialect_rev then
    Except.error BindError.differentDialect
  else if selfConn.client_guid ≠ newConn.client_guid then
    Except.error BindError.differentClientGuid
  else if ¬ session.is_ready then Except.error BindError.notReady
  else if session.allow_unsigned then Except.error BindError.allowsUnsigned
  else Except.ok newChannelId

/-! ## AES-128 and GMAC primitives

Modelled from the spec: the crate's `crypto` module (AES-GMAC signing
selected by the negotiate context, per MS-SMB2 and NIST SP 800-38D /
FIPS 197) is not among the sources here, so the primitives are embedded
from those standards.  Bytes are naturals below 256 and 128-bit GHASH
blocks are naturals below 2^128 in big-endian bit order. -/

/-- Calls the continuation on a fully evaluated natural; semantically the
identity, it only forces strict evaluation so that kernel-level reduction
of the crypto functions below stays shallow. -/
def strictNat {β : Sort _} (n : Nat) (k : Nat → β) : β :=
  match n with
  | 0 => k 0
  | m + 1 => k (m + 1)

/-- Calls the continuation on a fully evaluated byte list; semantically
the identity (see `strictNat`). -/
def strictBytes {β : Sort _} : List Nat → (List Nat → β) → β
  | [], k => k []
  | n :: rest, k =>
    strictNat n (fun m => strictBytes rest (fun r => k (m :: r)))

/-- Product in GF(2^8) modulo the AES polynomial `x^8+x^4+x^3+x+1`. -/
def gf8MulGo : Nat → Nat → Nat → Nat → Nat
  | 0, _, _, acc => acc
  | k + 1, a, b, acc =>
    strictNat (if a ≥ 0x80 then (a * 2) ^^^ 0x11b else a * 2) fun a2 =>
    strictNat (if b % 2 = 1 then acc ^^^ a else acc) fun acc2 =>
    gf8MulGo k a2 (b / 2) acc2

/-- Product of two field elements of GF(2^8). -/
def gf8Mul (a b : Nat) : Nat := gf8MulGo 8 a b 0

/-- Power in GF(2^8), by iterated multiplication. -/
def gf8PowGo (a : Nat) : Nat → Nat → Nat
  | 0, acc => acc
  | n + 1, acc => strictNat (gf8Mul a acc) (gf8PowGo a n)

/-- Power in GF(2^8). -/
def gf8Pow (a n : Nat) : Nat := gf8PowGo a n 1

/-- Square in GF(2^8). -/
def gf8Sq (a : Nat) : Nat := gf8Mul a a

/-- Multiplicative inverse in GF(2^8) (zero maps to zero), computed as
`a^254` by an addition chain of squarings and multiplications. -/
def gf8Inv (a : Nat) : Nat :=
  strictNat (gf8Sq a) fun a2 =>
  strictNat (gf8Mul a2 a) fun a3 =>
  strictNat (gf8Mul (gf8Sq a3) a) fun a7 =>
  strictNat (gf8Mul (gf8Sq a7) a) fun a15 =>
  strictNat (gf8Mul (gf8Sq a15) a) fun a31 =>
  strictNat (gf8Mul (gf8Sq a31) a) fun a63 =>
  strictNat (gf8Mul (gf8Sq a63) a) fun a127 =>
  gf8Sq a127

/-- Cyclic left rotation of an 8-bit value. -/
def rotl8 (b k : Nat) : Nat := ((b * 2 ^ k) + b / 2 ^ (8 - k)) % 256

/-- The AES S-box: affine transform of the field inverse (FIPS 197 5.1.1). -/
def aesSBox (x : Nat) : Nat :=
  strictNat (gf8Inv x) fun b =>
  b ^^^ rotl8 b 1 ^^^ rotl8 b 2 ^^^ rotl8 b 3 ^^^ rotl8 b 4 ^^^ 0x63

/-- SubWord on a 32-bit word stored as big-endian bytes. -/
def subWord (w : Nat) : Nat :=
  aesSBox (w / 2 ^ 24 % 256) * 2 ^ 24 + aesSBox (w / 2 ^ 16 % 256) * 2 ^ 16 +
    aesSBox (w / 2 ^ 8 % 256) * 2 ^ 8 + aesSBox (w % 256)

/-- RotWord: cyclic left rotation of a 32-bit word by one byte. -/
def rotWord (w : Nat) : Nat := (w * 2 ^ 8 + w / 2 ^ 24) % 2 ^ 32

/-- Big-endian bytes of a value, `w` bytes wide. -/
def beBytes (w n : Nat) : List Nat :=
  (List.range w).map (fun i => n / 2 ^ (8 * (w - 1 - i)) % 256)

/-- Value of a big-endian byte list. -/
def beVal (bs : List Nat) : Nat := bs.foldl (fun acc b => acc * 256 + b) 0

/-- AES-128 key expansion step: appends words until the schedule has
`4 + n` words. -/
def expandFrom : Nat → List Nat → List Nat
  | 0, ws => ws
  | n + 1, ws =>
    let i := ws.length
    let wPrev := ws.getD (i - 1) 0
    let wBack := ws.getD (i - 4) 0
    let t :=
      if i % 4 = 0 then subWord (rotWord wPrev) ^^^ gf8Pow 2 (i / 4 - 1) * 2 ^ 24
      else wPrev
    strictNat (wBack ^^^ t) fun w => expandFrom n (ws ++ [w])

/-- AES-128 key schedule: 44 words from a 16-byte key. -/
def keySchedule (key : List Nat) : List Nat :=
  expandFrom 40
    [beVal (key.take 4), beVal ((key.drop 4).take 4),
     beVal ((key.drop 8).take 4), beVal ((key.drop 12).take 4)]

/-- SubBytes on a 16-byte state. -/
def subBytes (s : List Nat) : List Nat := s.map aesSBox

/-- ShiftRows on a 16-byte column-major state, as an index permutation. -/
def shiftRows (s : List Nat) : List Nat :=
  [0, 5, 10, 15, 4, 9, 14, 3, 8, 13, 2, 7, 12, 1, 6, 11].map (fun i => s.getD i 0)

/-- MixColumns on one 4-byte column. -/
def mixColumn (a0 a1 a2 a3 : Nat) : List Nat :=
  [gf8Mul 2 a0 ^^^ gf8Mul 3 a1 ^^^ a2 ^^^ a3,
   a0 ^^^ gf8Mul 2 a1 ^^^ gf8Mul 3 a2 ^^^ a3,
   a0 ^^^ a1 ^^^ gf8Mul 2 a2 ^^^ gf8Mul 3 a3,
   gf8Mul 3 a0 ^^^ a1 ^^^ a2 ^^^ gf8Mul 2 a3]

/-- MixColumns on the 16-byte state. -/
def mixColumns (s : List Nat) : List Nat :=
  mixColumn (s.getD 0 0) (s.getD 1 0) (s.getD 2 0) (s.getD 3 0) ++
  mixColumn (s.getD 4 0) (s.getD 5 0) (s.getD 6 0) (s.getD 7 0) ++
  mixColumn (s.getD 8 0) (s.getD 9 0) (s.getD 10 0) (s.getD 11 0) ++
  mixColumn (s.getD 12 0) (s.getD 13 0) (s.getD 14 0) (s.getD 15 0)

/-- AddRoundKey with four 32-bit round-key words. -/
def addRoundKey (words : List Nat) (s : List Nat) : List Nat :=
  (List.range 16).map (fun i =>
    s.getD i 0 ^^^ (words.getD (i / 4) 0) / 2 ^ (8 * (3 - i % 4)) % 256)

/-- One AES middle round. -/
def aesRound (words : List Nat) (s : List Nat) : List Nat :=
  addRoundKey words (mixColumns (shiftRows (subBytes s)))

/-- Runs rounds 1 through 9 of AES-128. -/
def aesMiddleRounds (ws : List Nat) : Nat → List Nat → List Nat
  | 0, s => s
  | n + 1, s =>
    strictBytes (aesRound ((ws.drop (4 * (10 - (n + 1)))).take 4) s)
      (aesMiddleRounds ws n)

/-- AES-128 block encryption of 16 bytes under an expanded key schedule. -/
def aesEncryptBlock (ws : List Nat) (block : List Nat) : List Nat :=
  strictBytes (addRoundKey (ws.take 4) block) fun s0 =>
  strictBytes (aesMiddleRounds ws 9 s0) fun s9 =>
  addRoundKey ((ws.drop 40).take 4) (shiftRows (subBytes s9))

/-- One step of the GF(2^128) product: processes bit `k-1` (with bit 127
the first bit in GHASH bit order) and halves `v`, folding in the GCM
reduction polynomial `R = 0xe1 << 120`. -/
def gfMul128Go (x : Nat) : Nat → Nat → Nat → Nat
  | 0, _, z => z
  | k + 1, v, z =>
    strictNat (if v % 2 = 1 then v / 2 ^^^ 0xe1 * 2 ^ 120 else v / 2) fun v2 =>
    strictNat (if x.testBit k then z ^^^ v else z) fun z2 =>
    gfMul128Go x k v2 z2

/-- GHASH product of two 128-bit blocks (NIST SP 800-38D, 6.3). -/
def gfMul128 (x y : Nat) : Nat := gfMul128Go x 128 y 0

/-- GHASH of a block sequence under hash subkey `h`. -/
def ghash (h : Nat) (blocks : List Nat) : Nat :=
  blocks.foldl (fun y b => gfMul128 (y ^^^ b) h) 0

/-- Splits a byte string into 128-bit blocks, zero-padding the last. -/
def toBlocks : List Nat → List Nat
  | [] => []
  | b0 :: b1 :: b2 :: b3 :: b4 :: b5 :: b6 :: b7 ::
      b8 :: b9 :: b10 :: b11 :: b12 :: b13 :: b14 :: b15 :: rest =>
    beVal [b0, b1, b2, b3, b4, b5, b6, b7, b8, b9, b10, b11, b12, b13, b14, b15] ::
      toBlocks rest
  | l => [beVal (l ++ List.replicate (16 - l.length) 0)]

/-- AES-128-GMAC tag over associated data only (GCM with empty plaintext):
`S = GHASH_H(pad(aad) || len64(aad) || 0)` and the tag is
`AES_K(J0) xor S` with `J0 = iv || 0^31 || 1` for a 12-byte `iv`.  The
result is the tag read as a little-endian `u128`, matching the `u128`
signature values used by the signer. -/
def aesGmac (key iv aad : List Nat) : Nat :=
  strictBytes (keySchedule key) fun ws =>
  strictNat (beVal (aesEncryptBlock ws (List.replicate 16 0))) fun h =>
  strictNat (ghash h (toBlocks aad ++ [8 * aad.length % 2 ^ 64 * 2 ^ 64])) fun s =>
  strictNat (beVal (aesEncryptBlock ws (iv ++ [0, 0, 0, 1]))) fun ek =>
  leVal (beBytes 16 (ek ^^^ s))

/-! ## Message signing (crates/smb/src/session/signer.rs) -/

/-- Nonce of AES-GMAC message signing.  Modelled from the spec: the
signing algorithm's `start(header)` lives in the missing `crypto` module;
per MS-SMB2 3.1.4.1 the 12-byte nonce is the message id in little endian
followed by a 32-bit word whose bit 0 is the `server_to_redir` flag and
bit 1 marks a CANCEL command. -/
def gmacNonce (h : Header) : List Nat :=
  u64le h.message_id ++
    u32le ((if HeaderFlags.server_to_redir h.flags then 1 else 0) +
      (if h.command = Command.cancel then 2 else 0))

/-- Signature computation (`MessageSigner::_calculate_signature`) for a
signing algorithm `algo` keyed on the header: serializes the header with
its signature field zeroed, feeds it to the algorithm, then feeds the
first buffer past the 64 header bytes (nothing when the first buffer is
shorter than a header) and every further buffer. -/
def calculate_signature_with (algo : Header → List Nat → Nat) (header : Header)
    (data : List (List Nat)) : Option Nat := do
  let headerBytes ← writeHeader header.zeroSignature
  let first ← data.head?
  let firstRest := if first.length ≥ 64 then first.drop 64 else []
  some (algo header (headerBytes ++ firstRest ++ (data.drop 1).flatten))

/-- Signature computation with the AES-GMAC algorithm under `key`. -/
def calculate_signature_gmac (key : List Nat) (header : Header)
    (data : List (List Nat)) : Option Nat :=
  calculate_signature_with (fun h msg => aesGmac key (gmacNonce h) msg) header data

/-! ## Auxiliary definitions used by the statements below -/

/-- Group index of an ACE under the ordering of `ACL::order_aces`:
explicit access-denied entries first, then explicit access-allowed, then
inherited ones. -/
def aceKey (a : ACE) : Nat :=
  if a.inherited then 2 else if a.is_access_allowed then 1 else 0

/-- One-byte encoder for booleans, used as a concrete element codec when
exercising the generic chained-list statements. -/
def wrBool (b : Bool) : List Nat := [if b then 1 else 0]

/-- One-byte decoder for booleans (values other than 0 and 1 fail),
matching `wrBool`. -/
def rdBool (data : List Nat) (pos : Nat) : Option (Bool × Nat) :=
  match readU8 data pos with
  | some 1 => some (true, pos + 1)
  | some 0 => some (false, pos + 1)
  | _ => Option.none

/-- Header bytes of the signing test vector in `signer.rs`
(`test_calc_signature`): a session logoff request. -/
def signerTestHeaderBytes : List Nat :=
  [0xfe, 0x53, 0x4d, 0x42, 0x40, 0x0, 0x1, 0x0, 0x0, 0x0, 0x0, 0x0, 0x2, 0x0, 0x1, 0x0,
   0x18, 0x0, 0x0, 0x0, 0x0, 0x0, 0x0, 0x0, 0x9, 0x0, 0x0, 0x0, 0x0, 0x0, 0x0, 0x0, 0x0,
   0x0, 0x0, 0x0, 0x0, 0x0, 0x0, 0x0, 0x53, 0x20, 0xc, 0x21, 0x0, 0x0, 0x0, 0x0, 0x76,
   0x23, 0x4b, 0x3c, 0x81, 0x2f, 0x51, 0xab, 0x8a, 0x5c, 0xf9, 0xfa, 0x43, 0xd4, 0xeb,
   0x28]

/-- The signing key of the signer test (`TEST_SIGNING_KEY`). -/
def signerTestKey : List Nat :=
  [0xAC, 0x36, 0xE9, 0x54, 0x3C, 0xD8, 0x88, 0xF0, 0xA8, 0x41, 0x23, 0xE4, 0x6B, 0xB2,
   0xA0, 0xD7]

/-- The header value decoded from `signerTestHeaderBytes` (the test reads
it with `Header::read_le`). -/
def signerTestHeader : Header :=
  Header.mk 1 0 Command.logoff 1 0x18 0 9 (some 0) Option.none 0x210c2053
    (leVal [0x76, 0x23, 0x4b, 0x3c, 0x81, 0x2f, 0x51, 0xab, 0x8a, 0x5c, 0xf9, 0xfa, 0x43,
      0xd4, 0xeb, 0x28])

/-! # Theorems

General lemmas about the byte-level helpers come first, followed by one
theorem (plus, where needed, counterexample and witness) per claim. -/

theorem u16le_length (n : Nat) : (u16le n).length = 2 := rfl

theorem u32le_length (n : Nat) : (u32le n).length = 4 := rfl

theorem u128le_length (n : Nat) : (u128le n).length = 16 := rfl

theorem leVal_u32le (n : Nat) : leVal (u32le n) = n % 2 ^ 32 := by
  simp only [leVal, u32le, List.foldr_cons, List.foldr_nil]
  omega

theorem readBytes_concat (pre mid post : List Nat) (pos n : Nat)
    (hpos : pre.length = pos) (h : mid.length = n) :
    readBytes (pre ++ (mid ++ post)) pos n = some mid := by
  subst hpos h
  simp only [readBytes, List.length_append]
  rw [if_pos (by omega)]
  rw [List.drop_left, List.take_left]

theorem readLe_concat (pre mid post : List Nat) (pos w : Nat)
    (hpos : pre.length = pos) (h : mid.length = w) :
    readLe (pre ++ (mid ++ post)) pos w = some (leVal mid) := by
  simp [readLe, readBytes_concat pre mid post pos w hpos h]

/-- C8: binding an existing session to a new connection returns an error
without creating a channel whenever the new connection's dialect differs,
the client GUID differs, the source session is not Ready, or the source
session allows unsigned messages (guest/anonymous); binding proceeds,
creating the channel with the fresh id, exactly when all four conditions
hold. -/
theorem session_bind_spec (selfConn newConn : ConnectionInfo)
    (session : SessionInfo) (cid : Nat) :
    (Session.bind selfConn newConn session cid = Except.ok cid ↔
      (selfConn.dialect_rev = newConn.dialect_rev ∧
       selfConn.client_guid = newConn.client_guid ∧
       session.is_ready = true ∧ session.allow_unsigned = false)) ∧
    (¬ (selfConn.dialect_rev = newConn.dialect_rev ∧
        selfConn.client_guid = newConn.client_guid ∧
        session.is_ready = true ∧ session.allow_unsigned = false) →
      ∃ e, Session.bind selfConn newConn session cid = Except.error e) := by
  unfold Session.bind
  split_ifs with h1 h2 h3 h4 <;> simp_all

/-- C8 witness: a dialect mismatch is refused with an error. -/
theorem session_bind_spec_witness :
    ¬ ((ConnectionInfo.mk 0x0311 7).dialect_rev =
        (ConnectionInfo.mk 0x0302 7).dialect_rev ∧
       (ConnectionInfo.mk 0x0311 7).client_guid =
        (ConnectionInfo.mk 0x0302 7).client_guid ∧
       (SessionInfo.mk SessionState.ready false).is_ready = true ∧
       (SessionInfo.mk SessionState.ready false).allow_unsigned = false) ∧
    (∃ e, Session.bind (ConnectionInfo.mk 0x0311 7) (ConnectionInfo.mk 0x0302 7)
      (SessionInfo.mk SessionState.ready false) 1 = Except.error e) :=
  ⟨by decide,
   (session_bind_spec (ConnectionInfo.mk 0x0311 7) (ConnectionInfo.mk 0x0302 7)
     (SessionInfo.mk SessionState.ready false) 1).2 (by decide)⟩

/-- C6 counterexample: the claim says a negotiate-context list with a
context type outside the catalog decodes successfully with the payload
kept as raw bytes; in the code the `repr(u16)` enum read fails, so the
list decode errors out.  Type code 0x0004 is not in the catalog, and a
one-element list with that type fails to decode. -/
theorem unknown_context_cex :
    readNegotiateContexts
      [0x04, 0x00, 0x08, 0x00, 0x00, 0x00, 0x00, 0x00,
       0xde, 0xad, 0xbe, 0xef, 0x00, 0x00, 0x00, 0x00] 0 1 = Option.none := by
  rfl

/-- C6 amended: decoding a negotiate context whose type code is outside
the seven-entry catalog, or a create-context record whose name matches no
catalog name, is a fatal decode error (nothing is preserved as opaque
bytes). -/
theorem unknown_context_is_error :
    (∀ (data : List Nat) (pos tRaw : Nat),
      readU16 data (alignUp pos 8) = some tRaw →
      NegotiateContextType.fromU16 tRaw = Option.none →
      readNegotiateContext data pos = Option.none) ∧
    (∀ (γ : Type) (payloadOf : CreateContextType → Option γ) (nameBytes : List Nat),
      CreateContextType.from_name nameBytes = Option.none →
      readCreateContextRequestData payloadOf nameBytes = Option.none) := by
  constructor
  · intro data pos tRaw h1 h2
    simp [readNegotiateContext, readU16] at h1 ⊢
    rw [h1]
    simp [h2]
  · intro γ payloadOf nameBytes h
    simp [readCreateContextRequestData, h]

theorem readFieldsGo_nil_inv {data : List Nat} {pos : Nat} {l : List Nat}
    (h : readFieldsGo data pos [] = some l) : l = [] := by
  simpa [readFieldsGo] using h.symm

theorem readFieldsGo_cons_inv {data : List Nat} {pos w : Nat} {ws l : List Nat}
    (h : readFieldsGo data pos (w :: ws) = some l) :
    ∃ v rest, readLe data pos w = some v ∧
      readFieldsGo data (pos + w) ws = some rest ∧ l = v :: rest := by
  cases hv : readLe data pos w with
  | none => simp [readFieldsGo, hv] at h
  | some v =>
    cases hr : readFieldsGo data (pos + w) ws with
    | none => simp [readFieldsGo, hv, hr] at h
    | some rest =>
      simp [readFieldsGo, hv, hr] at h
      exact ⟨v, rest, rfl, rfl, h.symm⟩

/-- C3 counterexample: the claim places the AEAD associated data past the
signature and the nonce (bytes 36 to 52 of the transform header), but
`aead_bytes` strips only the magic and the signature (bytes 20 to 52),
keeping the nonce; on any concrete header the two byte strings differ. -/
theorem aead_bytes_cex :
    EncryptedHeader.aead_bytes (EncryptedHeader.mk 0 (List.replicate 16 0) 0 0) ≠
      (writeEncryptedHeader (EncryptedHeader.mk 0 (List.replicate 16 0) 0 0)).drop 36 := by
  decide

/-- C3 amended: the AEAD associated data consists of the transform-header
bytes past the magic and the signature, that is the nonce followed by
original size, reserved, flags and session id; the tag returned by the
cipher is placed into the header's signature field, and decryption hands
the same associated-data bytes plus the received signature to the
cipher. -/
theorem aead_bytes_spec :
    (∀ h : EncryptedHeader, h.nonce.length = 16 →
      EncryptedHeader.aead_bytes h =
        h.nonce ++ u32le h.original_message_size ++ u16le 0 ++ u16le 1 ++
          u64le h.session_id) ∧
    (∀ (enc : List Nat → List Nat → List Nat → EncryptResult)
        (msg : List Nat) (sid : Nat) (nonce : List Nat),
      (encrypt_message enc msg sid nonce).1 =
        EncryptedHeader.mk
          (enc msg (EncryptedHeader.mk 0 nonce (msg.length % 2 ^ 32) sid).aead_bytes
            nonce).signature
          nonce (msg.length % 2 ^ 32) sid ∧
      (encrypt_message enc msg sid nonce).2 =
        (enc msg (EncryptedHeader.mk 0 nonce (msg.length % 2 ^ 32) sid).aead_bytes
          nonce).ciphertext) ∧
    (∀ (dec : List Nat → List Nat → List Nat → Nat → Option (List Nat))
        (hdr : EncryptedHeader) (ct : List Nat),
      decrypt_message dec hdr ct = dec ct hdr.aead_bytes hdr.nonce hdr.signature) := by
  refine ⟨?_, ?_, ?_⟩
  · intro h hn
    have hsplit : writeEncryptedHeader h =
        (encryptedHeaderMagic ++ u128le h.signature) ++
          (h.nonce ++ u32le h.original_message_size ++ u16le 0 ++ u16le 1 ++
            u64le h.session_id) := by
      simp [writeEncryptedHeader, List.append_assoc]
    have hlen : (encryptedHeaderMagic ++ u128le h.signature).length = 20 := by
      simp [encryptedHeaderMagic, u128le_length]
    rw [EncryptedHeader.aead_bytes, hsplit, ← hlen, List.drop_left]
  · intro enc msg sid nonce
    exact ⟨rfl, rfl⟩
  · intro dec hdr ct
    rfl

/-- C3 witness: the associated-data shape at a concrete header. -/
theorem aead_bytes_spec_witness :
    (EncryptedHeader.mk 5 (List.replicate 16 2) 104 9).nonce.length = 16 ∧
    EncryptedHeader.aead_bytes (EncryptedHeader.mk 5 (List.replicate 16 2) 104 9) =
      (EncryptedHeader.mk 5 (List.replicate 16 2) 104 9).nonce ++ u32le 104 ++
        u16le 0 ++ u16le 1 ++ u64le 9 :=
  ⟨by decide,
   aead_bytes_spec.1 (EncryptedHeader.mk 5 (List.replicate 16 2) 104 9) (by decide)⟩

/-- C7: the message signature is computed over the serialized 64-byte
header with its signature field zeroed followed by the payload buffer
bytes, so it does not depend on the signature field itself; and on the
signer test vector (logoff header, payload `04 00 00 00`, the test key)
the AES-GMAC signature is exactly `0x28ebd443faf95c8aab512f813c4b2376`. -/
theorem calculate_signature_spec :
    (∀ (key : List Nat) (h : Header) (data : List (List Nat)),
      calculate_signature_gmac key h data =
        calculate_signature_gmac key h.zeroSignature data) ∧
    calculate_signature_gmac signerTestKey signerTestHeader
        [signerTestHeaderBytes, [0x4, 0x0, 0x0, 0x0]] =
      some 0x28ebd443faf95c8aab512f813c4b2376 := by
  constructor
  · intro key h data
    rfl
  · rfl

theorem sort_aces_by_eq_compare (x z : ACE) :
    sort_aces_by x z = compare (aceKey x) (aceKey z) := by
  obtain ⟨xi, xa, xr⟩ := x
  obtain ⟨zi, za, zr⟩ := z
  cases xi <;> cases xa <;> cases zi <;> cases za <;> rfl

theorem aceKey_le_two (a : ACE) : aceKey a ≤ 2 := by
  rw [aceKey]
  split_ifs <;> omega

theorem sort_aces_by_ne_gt {x z : ACE} (h : aceKey x ≤ aceKey z) :
    sort_aces_by x z ≠ Ordering.gt := by
  intro hc
  rw [sort_aces_by_eq_compare, Nat.compare_eq_gt] at hc
  omega

theorem sort_aces_by_gt {x z : ACE} (h : aceKey z < aceKey x) :
    sort_aces_by x z = Ordering.gt := by
  rw [sort_aces_by_eq_compare, Nat.compare_eq_gt]
  omega

theorem sort_aces_by_le {x z : ACE} (h : aceKey x ≤ aceKey z) :
    (sort_aces_by x z).isLE = true := by
  rw [sort_aces_by_eq_compare]
  cases hc : compare (aceKey x) (aceKey z) with
  | lt => rfl
  | eq => rfl
  | gt => rw [Nat.compare_eq_gt] at hc; omega

theorem group_flags_of_key0 (a : ACE) (h : aceKey a = 0) :
    isExplicitDenied a = true ∧ isExplicitAllowed a = false ∧
      isInheritedAce a = false := by
  obtain ⟨i, al, r⟩ := a
  cases i <;> cases al <;>
    simp_all [aceKey, isExplicitDenied, isExplicitAllowed, isInheritedAce]

theorem group_flags_of_key1 (a : ACE) (h : aceKey a = 1) :
    isExplicitDenied a = false ∧ isExplicitAllowed a = true ∧
      isInheritedAce a = false := by
  obtain ⟨i, al, r⟩ := a
  cases i <;> cases al <;>
    simp_all [aceKey, isExplicitDenied, isExplicitAllowed, isInheritedAce]

theorem group_flags_of_key2 (a : ACE) (h : aceKey a = 2) :
    isExplicitDenied a = false ∧ isExplicitAllowed a = false ∧
      isInheritedAce a = true := by
  obtain ⟨i, al, r⟩ := a
  cases i <;> cases al <;>
    simp_all [aceKey, isExplicitDenied, isExplicitAllowed, isInheritedAce]

theorem aceKey_of_ed {a : ACE} (h : isExplicitDenied a = true) : aceKey a = 0 := by
  obtain ⟨i, al, r⟩ := a
  cases i <;> cases al <;> simp_all [aceKey, isExplicitDenied]

theorem aceKey_of_ea {a : ACE} (h : isExplicitAllowed a = true) : aceKey a = 1 := by
  obtain ⟨i, al, r⟩ := a
  cases i <;> cases al <;> simp_all [aceKey, isExplicitAllowed]

theorem aceKey_of_in {a : ACE} (h : isInheritedAce a = true) : aceKey a = 2 := by
  obtain ⟨i, al, r⟩ := a
  cases i <;> simp_all [aceKey, isInheritedAce]

theorem insertAceSorted_front (x : ACE) (l : List ACE)
    (h : ∀ z ∈ l, sort_aces_by x z ≠ Ordering.gt) :
    insertAceSorted x l = x :: l := by
  cases l with
  | nil => rfl
  | cons z r =>
    rw [insertAceSorted, if_neg (h z (List.mem_cons_self z r))]

theorem insertAceSorted_skip (x : ACE) (A B : List ACE)
    (h : ∀ z ∈ A, sort_aces_by x z = Ordering.gt) :
    insertAceSorted x (A ++ B) = A ++ insertAceSorted x B := by
  induction A with
  | nil => rfl
  | cons a A ih =>
    rw [List.cons_append, insertAceSorted,
      if_pos (h a (List.mem_cons_self a A)), List.cons_append,
      ih (fun z hz => h z (List.mem_cons_of_mem a hz))]

theorem sortAcesStable_decomp (l : List ACE) :
    sortAcesStable l = l.filter isExplicitDenied ++ l.filter isExplicitAllowed ++
      l.filter isInheritedAce := by
  induction l with
  | nil => rfl
  | cons x l ih =>
    rw [sortAcesStable, ih]
    rcases hx : aceKey x with _ | _ | _ | n
    · obtain ⟨hed, hea, hin⟩ := group_flags_of_key0 x hx
      rw [insertAceSorted_front]
      · simp [List.filter_cons, hed, hea, hin]
      · intro z _
        exact sort_aces_by_ne_gt (by omega)
    · obtain ⟨hed, hea, hin⟩ := group_flags_of_key1 x hx
      rw [List.append_assoc, insertAceSorted_skip, insertAceSorted_front]
      · simp [List.filter_cons, hed, hea, hin]
      · intro z hz
        rcases List.mem_append.mp hz with hz2 | hz2
        · have := aceKey_of_ea (List.mem_filter.mp hz2).2
          exact sort_aces_by_ne_gt (by omega)
        · have := aceKey_of_in (List.mem_filter.mp hz2).2
          exact sort_aces_by_ne_gt (by omega)
      · intro z hz
        have := aceKey_of_ed (List.mem_filter.mp hz).2
        exact sort_aces_by_gt (by omega)
    · obtain ⟨hed, hea, hin⟩ := group_flags_of_key2 x hx
      rw [List.append_assoc, ← List.append_assoc, insertAceSorted_skip,
        insertAceSorted_front]
      · simp [List.filter_cons, hed, hea, hin]
      · intro z hz
        have := aceKey_of_in (List.mem_filter.mp hz).2
        exact sort_aces_by_ne_gt (by omega)
      · intro z hz
        rcases List.mem_append.mp hz with hz2 | hz2
        · have := aceKey_of_ed (List.mem_filter.mp hz2).2
          exact sort_aces_by_gt (by omega)
        · have := aceKey_of_ea (List.mem_filter.mp hz2).2
          exact sort_aces_by_gt (by omega)
    · have := aceKey_le_two x
      omega

theorem chainLe_of_all (le : ACE → ACE → Bool) (l : List ACE)
    (h : ∀ a ∈ l, ∀ b ∈ l, le a b = true) : chainLe le l = true := by
  induction l with
  | nil => rfl
  | cons a t ih =>
    cases t with
    | nil => rfl
    | cons b r =>
      rw [chainLe, h a (List.mem_cons_self _ _) b
          (List.mem_cons_of_mem _ (List.mem_cons_self _ _)),
        ih (fun p hp q hq =>
          h p (List.mem_cons_of_mem _ hp) q (List.mem_cons_of_mem _ hq))]
      rfl

theorem chainLe_append (le : ACE → ACE → Bool) (l1 l2 : List ACE)
    (h1 : chainLe le l1 = true) (h2 : chainLe le l2 = true)
    (hcross : ∀ a ∈ l1, ∀ b ∈ l2, le a b = true) :
    chainLe le (l1 ++ l2) = true := by
  induction l1 with
  | nil => simpa
  | cons a t ih =>
    cases t with
    | nil =>
      cases l2 with
      | nil => rfl
      | cons b r =>
        rw [List.singleton_append, chainLe,
          hcross a (List.mem_cons_self _ _) b (List.mem_cons_self _ _), h2]
        rfl
    | cons a2 r =>
      rw [chainLe] at h1
      rw [List.cons_append, List.cons_append, chainLe, ← List.cons_append]
      rw [Bool.and_eq_true] at h1
      rw [h1.1, ih h1.2
        (fun p hp q hq => hcross p (List.mem_cons_of_mem _ hp) q hq)]
      rfl

/-- C2: `order_aces` is an idempotent, stable reordering: it equals the
concatenation of the explicit access-denied entries, the explicit
access-allowed entries and the inherited entries, each kept in original
relative order; it permutes the original entries, `is_ace_sorted` holds
of its result, and `insert_ace` is push-then-`order_aces`. -/
theorem acl_order_aces_spec (x : ACL) :
    ACL.order_aces (ACL.order_aces x) = ACL.order_aces x ∧
    (ACL.order_aces x).ace =
      x.ace.filter isExplicitDenied ++ x.ace.filter isExplicitAllowed ++
        x.ace.filter isInheritedAce ∧
    (ACL.order_aces x).ace.Perm x.ace ∧
    ACL.is_ace_sorted (ACL.order_aces x) = true ∧
    ∀ a, ACL.insert_ace x a =
      ACL.order_aces (ACL.mk x.acl_revision (x.ace ++ [a])) := by
  have hedA : ∀ l : List ACE, ∀ a ∈ l.filter isExplicitDenied, aceKey a = 0 :=
    fun l a ha => aceKey_of_ed (List.mem_filter.mp ha).2
  have heaA : ∀ l : List ACE, ∀ a ∈ l.filter isExplicitAllowed, aceKey a = 1 :=
    fun l a ha => aceKey_of_ea (List.mem_filter.mp ha).2
  have hinA : ∀ l : List ACE, ∀ a ∈ l.filter isInheritedAce, aceKey a = 2 :=
    fun l a ha => aceKey_of_in (List.mem_filter.mp ha).2
  refine ⟨?_, ?_, ?_, ?_, fun a => rfl⟩
  · rw [ACL.order_aces, ACL.order_aces, sortAcesStable_decomp x.ace]
    rw [sortAcesStable_decomp]
    congr 1
    have hfED : ∀ (l : List ACE) (hk : ∀ a ∈ l, aceKey a = 0),
        l.filter isExplicitDenied = l ∧ l.filter isExplicitAllowed = [] ∧
          l.filter isInheritedAce = [] := by
      intro l hk
      refine ⟨List.filter_eq_self.mpr ?_, List.filter_eq_nil_iff.mpr ?_,
        List.filter_eq_nil_iff.mpr ?_⟩
      · exact fun a ha => (group_flags_of_key0 a (hk a ha)).1
      · intro a ha
        simp [(group_flags_of_key0 a (hk a ha)).2.1]
      · intro a ha
        simp [(group_flags_of_key0 a (hk a ha)).2.2]
    have hfEA : ∀ (l : List ACE) (hk : ∀ a ∈ l, aceKey a = 1),
        l.filter isExplicitDenied = [] ∧ l.filter isExplicitAllowed = l ∧
          l.filter isInheritedAce = [] := by
      intro l hk
      refine ⟨List.filter_eq_nil_iff.mpr ?_, List.filter_eq_self.mpr ?_,
        List.filter_eq_nil_iff.mpr ?_⟩
      · intro a ha
        simp [(group_flags_of_key1 a (hk a ha)).1]
      · exact fun a ha => (group_flags_of_key1 a (hk a ha)).2.1
      · intro a ha
        simp [(group_flags_of_key1 a (hk a ha)).2.2]
    have hfIN : ∀ (l : List ACE) (hk : ∀ a ∈ l, aceKey a = 2),
        l.filter isExplicitDenied = [] ∧ l.filter isExplicitAllowed = [] ∧
          l.filter isInheritedAce = l := by
      intro l hk
      refine ⟨List.filter_eq_nil_iff.mpr ?_, List.filter_eq_nil_iff.mpr ?_,
        List.filter_eq_self.mpr ?_⟩
      · intro a ha
        simp [(group_flags_of_key2 a (hk a ha)).1]
      · intro a ha
        simp [(group_flags_of_key2 a (hk a ha)).2.1]
      · exact fun a ha => (group_flags_of_key2 a (hk a ha)).2.2
    obtain ⟨e1, e2, e3⟩ := hfED _ (hedA x.ace)
    obtain ⟨f1, f2, f3⟩ := hfEA _ (heaA x.ace)
    obtain ⟨g1, g2, g3⟩ := hfIN _ (hinA x.ace)
    simp [List.filter_append, e1, e2, e3, f1, f2, f3, g1, g2, g3]
  · rw [ACL.order_aces, sortAcesStable_decomp]
  · rw [ACL.order_aces, sortAcesStable_decomp]
    have h1 : List.Perm
        (x.ace.filter isExplicitDenied ++ x.ace.filter isExplicitAllowed)
        (x.ace.filter (fun a => ! a.inherited)) := by
      have hcomm : x.ace.filter isExplicitDenied =
          (x.ace.filter (fun a => ! a.inherited)).filter
            (fun a => ! a.is_access_allowed) := by
        rw [List.filter_filter]
        exact List.filter_congr (fun a _ => by
          simp [isExplicitDenied, Bool.and_comm])
      have hcomm2 : x.ace.filter isExplicitAllowed =
          (x.ace.filter (fun a => ! a.inherited)).filter
            (fun a => ! ! a.is_access_allowed) := by
        rw [List.filter_filter]
        exact List.filter_congr (fun a _ => by
          simp [isExplicitAllowed, Bool.and_comm])
      rw [hcomm, hcomm2]
      exact List.filter_append_perm _ _
    have h2 : List.Perm
        (x.ace.filter (fun a => ! a.inherited) ++ x.ace.filter isInheritedAce)
        x.ace := by
      have hcomm3 : x.ace.filter isInheritedAce =
          x.ace.filter (fun a => ! ! a.inherited) :=
        List.filter_congr (fun a _ => by simp [isInheritedAce])
      rw [hcomm3]
      exact List.filter_append_perm _ _
    exact ((h1.append_right _).trans h2)
  · rw [ACL.is_ace_sorted, ACL.order_aces, sortAcesStable_decomp]
    apply chainLe_append
    · apply chainLe_append
      · apply chainLe_of_all
        intro a ha b hb
        exact sort_aces_by_le (by rw [hedA x.ace a ha, hedA x.ace b hb])
      · apply chainLe_of_all
        intro a ha b hb
        exact sort_aces_by_le (by rw [heaA x.ace a ha, heaA x.ace b hb])
      · intro a ha b hb
        exact sort_aces_by_le
          (by rw [hedA x.ace a ha, heaA x.ace b hb]; omega)
    · apply chainLe_of_all
      intro a ha b hb
      exact sort_aces_by_le (by rw [hinA x.ace a ha, hinA x.ace b hb])
    · intro a ha b hb
      have hb2 := hinA x.ace b hb
      rcases List.mem_append.mp ha with ha2 | ha2
      · exact sort_aces_by_le (by rw [hedA x.ace a ha2, hb2]; omega)
      · exact sort_aces_by_le (by rw [heaA x.ace a ha2, hb2]; omega)

/-- C9: a negotiate response decodes only when its context count is
positive exactly for dialect 3.1.1: whenever the wire carries a valid
dialect code and a count violating that rule (a 3.1.1 response with no
contexts, or any other dialect with a positive count), the decode is a
fatal error. -/
theorem negotiate_response_context_count (data : List Nat)
    (pos dRaw count : Nat) (d : NegotiateDialect)
    (h1 : readU16 data (pos + 4) = some dRaw)
    (h2 : NegotiateDialect.fromU16 dRaw = some d)
    (h3 : readU16 data (pos + 6) = some count)
    (h4 : ¬ (if d = NegotiateDialect.smb0311 then 0 < count else count = 0)) :
    readNegotiateResponse data pos = Option.none := by
  rw [readNegotiateResponse]
  cases hf : readFieldsGo data pos [2, 2, 2, 2] with
  | none => rfl
  | some l =>
    obtain ⟨v0, l1, hv0, hf1, rfl⟩ := readFieldsGo_cons_inv hf
    obtain ⟨v1, l2, hv1, hf2, rfl⟩ := readFieldsGo_cons_inv hf1
    obtain ⟨v2, l3, hv2, hf3, rfl⟩ := readFieldsGo_cons_inv hf2
    obtain ⟨v3, l4, hv3, hf4, rfl⟩ := readFieldsGo_cons_inv hf3
    obtain rfl := readFieldsGo_nil_inv hf4
    rw [show pos + 2 + 2 = pos + 4 by omega] at hv2
    rw [show pos + 2 + 2 + 2 = pos + 6 by omega] at hv3
    rw [readU16] at h1 h3
    rw [h1] at hv2
    rw [h3] at hv3
    obtain rfl : dRaw = v2 := by simpa using hv2
    obtain rfl : count = v3 := by simpa using hv3
    by_cases h65 : v0 = 65
    · subst h65
      simp [h2, h4, guard, failure]
    · simp [h65, guard, failure]

/-- C9 witness: a response selecting dialect 2.0.2 with context count 5
fails to decode. -/
theorem negotiate_response_context_count_witness :
    readU16 [65, 0, 0, 0, 0x02, 0x02, 5, 0] (0 + 4) = some 0x0202 ∧
    NegotiateDialect.fromU16 0x0202 = some NegotiateDialect.smb0202 ∧
    readU16 [65, 0, 0, 0, 0x02, 0x02, 5, 0] (0 + 6) = some 5 ∧
    ¬ (if NegotiateDialect.smb0202 = NegotiateDialect.smb0311 then 0 < 5
       else 5 = 0) ∧
    readNegotiateResponse [65, 0, 0, 0, 0x02, 0x02, 5, 0] 0 = Option.none :=
  ⟨by rfl, by rfl, by rfl, by decide,
   negotiate_response_context_count [65, 0, 0, 0, 0x02, 0x02, 5, 0] 0 0x0202 5
     NegotiateDialect.smb0202 (by rfl) (by rfl) (by rfl) (by decide)⟩

/-- C10 counterexample: the claim requires the on-wire length field of
every successfully decoded chained-compression item to equal the payload
byte count (plus 4 when an original size is present), but the payload is
read with `until_eof` inside a `take_seek` window, so a stream shorter
than the declared length still decodes, with a shortened payload: here
the length field says 100, yet only 5 payload bytes exist and decoding
succeeds. -/
theorem compressed_item_truncated_cex :
    readCompressedChainedItem [0, 0, 0, 0, 100, 0, 0, 0, 1, 2, 3, 4, 5] 0 =
      some (CompressedChainedItem.mk CompressionAlgorithm.none 0 Option.none
        [1, 2, 3, 4, 5], 13) ∧
    readU32 [0, 0, 0, 0, 100, 0, 0, 0, 1, 2, 3, 4, 5] 4 = some 100 ∧
    ((5 : Nat) + 0 ≠ 100) := by
  refine ⟨by rfl, by rfl, by decide⟩

/-- C10 amended: in every item, `original_size` is present exactly when
the algorithm is LZNT1, LZ77, LZ77+Huffman or LZ4; an encoded item's
length field is the payload byte count plus exactly 4 when `original_size`
is present (modulo the `u32` width); and a decoded item's payload count
plus those extra bytes equals the on-wire length field provided the
stream actually contains the declared number of payload bytes (a shorter
stream decodes with a truncated payload instead). -/
theorem compressed_item_length_spec :
    (∀ (it : CompressedChainedItem) (bs : List Nat),
      writeCompressedChainedItem it = some bs →
      it.original_size.isSome = it.compression_algorithm.original_size_required ∧
      readU32 bs 4 = some ((it.payload_data.length +
        add_original_size_to_total_length it.compression_algorithm) % 2 ^ 32)) ∧
    (∀ (data : List Nat) (pos : Nat) (it : CompressedChainedItem) (p2 : Nat),
      readCompressedChainedItem data pos = some (it, p2) →
      it.original_size.isSome = it.compression_algorithm.original_size_required ∧
      (∀ len, readU32 data (pos + 4) = some len →
        add_original_size_to_total_length it.compression_algorithm ≤ len →
        len < 2 ^ 64 →
        pos + 8 + add_original_size_to_total_length it.compression_algorithm +
            (len - add_original_size_to_total_length it.compression_algorithm) ≤
          data.length →
        it.payload_data.length +
          add_original_size_to_total_length it.compression_algorithm = len)) := by
  constructor
  · intro it bs hw
    rw [writeCompressedChainedItem] at hw
    by_cases hx : xor it.original_size.isNone
        it.compression_algorithm.original_size_required = true
    · refine ⟨?_, ?_⟩
      · cases ho : it.original_size <;>
          simp [ho, Bool.xor_comm] at hx ⊢ <;> simp [hx]
      · rw [if_pos hx] at hw
        obtain rfl := (Option.some_inj.mp hw).symm
        have hsplit : u16le it.compression_algorithm.toU16 ++ u16le it.flags ++
            u32le (it.payload_data.length +
              add_original_size_to_total_length it.compression_algorithm) ++
            (match it.original_size with
              | some v => u32le v
              | Option.none => []) ++ it.payload_data =
            (u16le it.compression_algorithm.toU16 ++ u16le it.flags) ++
              (u32le (it.payload_data.length +
                add_original_size_to_total_length it.compression_algorithm) ++
              ((match it.original_size with
                | some v => u32le v
                | Option.none => []) ++ it.payload_data)) := by
          simp [List.append_assoc]
        rw [hsplit, readU32,
          readLe_concat _ _ _ 4 4 (by simp [u16le_length]) (u32le_length _),
          leVal_u32le]
    · rw [if_neg hx] at hw
      exact absurd hw (by simp)
  · intro data pos it p2 hr
    rw [readCompressedChainedItem] at hr
    split at hr
    · exact Option.noConfusion hr
    rename_i algRaw ha
    split at hr
    · exact Option.noConfusion hr
    rename_i alg hal
    split at hr
    · exact Option.noConfusion hr
    rename_i flags hfl
    split at hr
    · exact Option.noConfusion hr
    rename_i len0 hln
    split at hr
    · exact Option.noConfusion hr
    rename_i origStart hos
    by_cases hreq : alg.original_size_required = true
    · rw [if_pos hreq] at hos
      obtain ⟨ov, hov, rfl⟩ := Option.map_eq_some'.mp hos
      obtain ⟨rfl, rfl⟩ : CompressedChainedItem.mk alg flags (some ov)
          ((data.drop (pos + 12)).take
            ((len0 + 2 ^ 64 - add_original_size_to_total_length alg) % 2 ^ 64)) =
            it ∧ _ = p2 := by
        simpa using hr
      refine ⟨by simp [hreq], ?_⟩
      intro len hlen hadd hlt hav
      rw [hln] at hlen
      obtain rfl : len0 = len := by simpa using hlen
      rw [add_original_size_to_total_length, if_pos hreq] at hadd hav ⊢
      have hlim : (len0 + 2 ^ 64 -
          add_original_size_to_total_length alg) % 2 ^ 64 = len0 - 4 := by
        rw [add_original_size_to_total_length, if_pos hreq]
        omega
      simp only [hlim, List.length_take, List.length_drop]
      omega
    · rw [if_neg hreq] at hos
      obtain rfl : (Option.none, pos + 8) = origStart := by simpa using hos
      obtain ⟨rfl, rfl⟩ : CompressedChainedItem.mk alg flags Option.none
          ((data.drop (pos + 8)).take
            ((len0 + 2 ^ 64 - add_original_size_to_total_length alg) % 2 ^ 64)) =
            it ∧ _ = p2 := by
        simpa using hr
      refine ⟨by simp [hreq], ?_⟩
      intro len hlen hadd hlt hav
      rw [hln] at hlen
      obtain rfl : len0 = len := by simpa using hlen
      rw [add_original_size_to_total_length, if_neg hreq] at hadd hav ⊢
      have hlim : (len0 + 2 ^ 64 -
          add_original_size_to_total_length alg) % 2 ^ 64 = len0 := by
        rw [add_original_size_to_total_length, if_neg hreq]
        omega
      simp only [hlim, List.length_take, List.length_drop]
      omega

/-- C10 witness: a concrete LZ4 item with original size present
round-trips the length relation both on encode and on decode. -/
theorem compressed_item_length_spec_witness :
    (writeCompressedChainedItem
        (CompressedChainedItem.mk CompressionAlgorithm.lz4 0 (some 7) [9, 9]) =
      some [5, 0, 0, 0, 6, 0, 0, 0, 7, 0, 0, 0, 9, 9] ∧
     (CompressedChainedItem.mk CompressionAlgorithm.lz4 0 (some 7)
        [9, 9]).original_size.isSome =
       (CompressionAlgorithm.lz4).original_size_required ∧
     readU32 [5, 0, 0, 0, 6, 0, 0, 0, 7, 0, 0, 0, 9, 9] 4 = some ((2 + 4) % 2 ^ 32)) ∧
    (readCompressedChainedItem [5, 0, 0, 0, 6, 0, 0, 0, 7, 0, 0, 0, 9, 9] 0 =
      some (CompressedChainedItem.mk CompressionAlgorithm.lz4 0 (some 7) [9, 9], 14) ∧
     (2 : Nat) + add_original_size_to_total_length CompressionAlgorithm.lz4 = 6) := by
  have hw : writeCompressedChainedItem
      (CompressedChainedItem.mk CompressionAlgorithm.lz4 0 (some 7) [9, 9]) =
      some [5, 0, 0, 0, 6, 0, 0, 0, 7, 0, 0, 0, 9, 9] := by rfl
  have hr : readCompressedChainedItem [5, 0, 0, 0, 6, 0, 0, 0, 7, 0, 0, 0, 9, 9] 0 =
      some (CompressedChainedItem.mk CompressionAlgorithm.lz4 0 (some 7) [9, 9], 14) := by
    rfl
  refine ⟨⟨hw, (compressed_item_length_spec.1 _ _ hw).1,
    (compressed_item_length_spec.1 _ _ hw).2⟩,
    ⟨hr, (compressed_item_length_spec.2 _ _ _ _ hr).2 6 (by rfl) (by decide)
      (by decide) (by decide)⟩⟩

theorem readLe_some_bound {data : List Nat} {pos w v : Nat}
    (h : readLe data pos w = some v) : pos + w ≤ data.length := by
  rw [readLe, readBytes] at h
  by_cases hle : pos + w ≤ data.length
  · exact hle
  · rw [if_neg hle] at h
    exact Option.noConfusion h

theorem alignPad_mod (pad m : Nat) (h : 0 < pad) :
    (m + (pad - m % pad) % pad) % pad = 0 := by
  by_cases h0 : m % pad = 0
  · simp [h0, Nat.add_mod]
  · have hr : m % pad < pad := Nat.mod_lt _ h
    have h1 : (pad - m % pad) % pad = pad - m % pad := Nat.mod_eq_of_lt (by omega)
    rw [h1, Nat.add_mod, h1, show m % pad + (pad - m % pad) = pad by omega,
      Nat.mod_self]

theorem writeChainedGo_length_ge {α : Type} (wr : α → List Nat) (pad : Nat)
    (items : List α) (p : Nat) (h : items ≠ []) :
    4 ≤ (writeChainedGo wr pad items p).length := by
  match items with
  | [] => exact absurd rfl h
  | [x] => simp [writeChainedGo, u32le_length]
  | x :: y :: rest => simp [writeChainedGo, u32le_length]

/-- Core round-trip fact for chained item lists: reading back an encoded
non-empty list (written starting at the aligned absolute position
`pre.length`, with arbitrary trailing bytes) recovers exactly the encoded
items, stopping at the zero next-entry offset of the last entry without
looking at the trailing bytes. -/
theorem readChainedGo_of_write {α : Type} (wr : α → List Nat)
    (rd : List Nat → Nat → Option (α × Nat)) (pad : Nat) (hpad : 0 < pad)
    (hrd : ∀ (a : α) (pre post : List Nat),
      ∃ n, rd (pre ++ (wr a ++ post)) pre.length = some (a, n))
    (hsize : ∀ a, 4 + (wr a).length + pad ≤ 2 ^ 32) :
    ∀ (items : List α) (pre junk : List Nat), items ≠ [] →
      pre.length % pad = 0 →
      readChainedGo rd pad (pre ++ (writeChainedGo wr pad items pre.length ++ junk))
        pre.length = some items := by
  intro items
  induction items with
  | nil => intro pre junk hne _; exact absurd rfl hne
  | cons x tail ih =>
    intro pre junk _ hp
    cases tail with
    | nil =>
      have hdata : pre ++ (writeChainedGo wr pad [x] pre.length ++ junk) =
          pre ++ (u32le 0 ++ (wr x ++ junk)) := by
        simp [writeChainedGo, List.append_assoc]
      rw [hdata, readChainedGo]
      rw [if_neg (by omega)]
      split
      · rename_i hnone
        rw [readU32] at hnone
        rw [readLe_concat pre (u32le 0) (wr x ++ junk) pre.length 4 rfl
          (u32le_length 0), leVal_u32le] at hnone
        exact Option.noConfusion hnone
      · rename_i off hoff
        rw [readU32] at hoff
        rw [readLe_concat pre (u32le 0) (wr x ++ junk) pre.length 4 rfl
          (u32le_length 0), leVal_u32le] at hoff
        obtain rfl : (0 : Nat) % 2 ^ 32 = off := by simpa using hoff
        split
        · rename_i hrdnone
          obtain ⟨n, hn⟩ := hrd x (pre ++ u32le 0) junk
          rw [show (pre ++ u32le 0) ++ (wr x ++ junk) =
              pre ++ (u32le 0 ++ (wr x ++ junk)) by simp [List.append_assoc],
            show (pre ++ u32le 0).length = pre.length + 4 by
              simp [u32le_length]] at hn
          rw [hn] at hrdnone
          exact Option.noConfusion hrdnone
        · rename_i item n2 hitem
          obtain ⟨n, hn⟩ := hrd x (pre ++ u32le 0) junk
          rw [show (pre ++ u32le 0) ++ (wr x ++ junk) =
              pre ++ (u32le 0 ++ (wr x ++ junk)) by simp [List.append_assoc],
            show (pre ++ u32le 0).length = pre.length + 4 by
              simp [u32le_length]] at hn
          rw [hn] at hitem
          obtain ⟨rfl, rfl⟩ : x = item ∧ n = n2 := by
            have := Option.some_inj.mp hitem
            exact ⟨congrArg Prod.fst this, congrArg Prod.snd this⟩
          simp
    | cons y rest =>
      have hpadlt : (pad - (pre.length + 4 + (wr x).length) % pad) % pad < pad :=
        Nat.mod_lt _ hpad
      set body := wr x with hbody
      set padding := (pad - (pre.length + 4 + body.length) % pad) % pad
        with hpaddef
      set next := 4 + body.length + padding with hnextdef
      have hnextlt : next < 2 ^ 32 := by
        have := hsize x
        rw [← hbody] at this
        omega
      have hdata : pre ++ (writeChainedGo wr pad (x :: y :: rest) pre.length ++ junk) =
          pre ++ (u32le next ++ (body ++ (List.replicate padding 0 ++
            (writeChainedGo wr pad (y :: rest) (pre.length + next) ++ junk)))) := by
        conv_lhs => rw [writeChainedGo]
        simp only [← hbody, ← hpaddef, ← hnextdef, List.append_assoc]
      rw [hdata, readChainedGo]
      rw [if_neg (by omega)]
      split
      · rename_i hnone
        rw [readU32] at hnone
        rw [readLe_concat pre (u32le next) _ pre.length 4 rfl
          (u32le_length next), leVal_u32le] at hnone
        exact Option.noConfusion hnone
      · rename_i off hoff
        rw [readU32] at hoff
        rw [readLe_concat pre (u32le next) _ pre.length 4 rfl
          (u32le_length next), leVal_u32le, Nat.mod_eq_of_lt hnextlt] at hoff
        obtain rfl : next = off := by simpa using hoff
        split
        · rename_i hrdnone
          obtain ⟨n, hn⟩ := hrd x (pre ++ u32le next)
            (List.replicate padding 0 ++
              (writeChainedGo wr pad (y :: rest) (pre.length + next) ++ junk))
          rw [show (pre ++ u32le next) ++ (body ++ (List.replicate padding 0 ++
              (writeChainedGo wr pad (y :: rest) (pre.length + next) ++ junk))) =
              pre ++ (u32le next ++ (body ++ (List.replicate padding 0 ++
                (writeChainedGo wr pad (y :: rest) (pre.length + next) ++ junk))))
              by simp [List.append_assoc],
            show (pre ++ u32le next).length = pre.length + 4 by
              simp [u32le_length]] at hn
          rw [hn] at hrdnone
          exact Option.noConfusion hrdnone
        · rename_i item n2 hitem
          obtain ⟨n, hn⟩ := hrd x (pre ++ u32le next)
            (List.replicate padding 0 ++
              (writeChainedGo wr pad (y :: rest) (pre.length + next) ++ junk))
          rw [show (pre ++ u32le next) ++ (body ++ (List.replicate padding 0 ++
              (writeChainedGo wr pad (y :: rest) (pre.length + next) ++ junk))) =
              pre ++ (u32le next ++ (body ++ (List.replicate padding 0 ++
                (writeChainedGo wr pad (y :: rest) (pre.length + next) ++ junk))))
              by simp [List.append_assoc],
            show (pre ++ u32le next).length = pre.length + 4 by
              simp [u32le_length]] at hn
          rw [hn] at hitem
          obtain ⟨rfl, rfl⟩ : x = item ∧ n = n2 := by
            have := Option.some_inj.mp hitem
            exact ⟨congrArg Prod.fst this, congrArg Prod.snd this⟩
          rw [if_neg (by omega)]
          have hpre2 : pre ++ (u32le next ++ (body ++ (List.replicate padding 0 ++
              (writeChainedGo wr pad (y :: rest) (pre.length + next) ++ junk)))) =
              (pre ++ u32le next ++ body ++ List.replicate padding 0) ++
                (writeChainedGo wr pad (y :: rest) (pre.length + next) ++ junk) := by
            simp [List.append_assoc]
          have hlen2 : (pre ++ u32le next ++ body ++
              List.replicate padding 0).length = pre.length + next := by
            simp [u32le_length, List.length_replicate]
            omega
          have halign : (pre.length + next) % pad = 0 := by
            rw [hnextdef, hpaddef]
            rw [show pre.length + (4 + body.length +
                (pad - (pre.length + 4 + body.length) % pad) % pad) =
                (pre.length + 4 + body.length) +
                  (pad - (pre.length + 4 + body.length) % pad) % pad by omega]
            exact alignPad_mod pad _ hpad
          have hrec := ih (pre ++ u32le next ++ body ++ List.replicate padding 0)
            junk (by simp) (by rw [hlen2]; exact halign)
          rw [hlen2] at hrec
          rw [hpre2, hrec]
          rfl

theorem rdBool_reads_back (a : Bool) (pre post : List Nat) :
    ∃ n, rdBool (pre ++ (wrBool a ++ post)) pre.length = some (a, n) := by
  refine ⟨pre.length + 1, ?_⟩
  have h8 : readU8 (pre ++ (wrBool a ++ post)) pre.length =
      some (leVal (wrBool a)) :=
    readLe_concat pre (wrBool a) post pre.length 1 rfl (by cases a <;> rfl)
  cases a <;> rw [rdBool, h8] <;> rfl

theorem wrBool_size (pad : Nat) (hpad : pad ≤ 8) (a : Bool) :
    4 + (wrBool a).length + pad ≤ 2 ^ 32 := by
  cases a <;> simp [wrBool] <;> omega

/-- C4: decoding a chained variable-length list stops exactly at an entry
whose next-entry offset is zero (trailing bytes past it are never
consumed) or at an exhausted stream — an empty input decodes to the empty
list, and a stream that ends at an entry boundary ends the loop (as a
read error, since an entry's offset field cannot be read there) — while
an entry starting at a position not aligned to the protocol boundary is a
fatal decode error. -/
theorem chained_list_read_spec :
    (∀ (α : Type) (rd : List Nat → Nat → Option (α × Nat)) (pad : Nat)
        (data : List Nat) (pos : Nat), pos = data.length →
      readChainedItemList rd pad data pos = some []) ∧
    (∀ (α : Type) (rd : List Nat → Nat → Option (α × Nat)) (pad : Nat)
        (data : List Nat) (pos : Nat), pos % pad ≠ 0 → pos ≠ data.length →
      readChainedItemList rd pad data pos = (Option.none : Option (List α))) ∧
    (∀ (α : Type) (rd : List Nat → Nat → Option (α × Nat)) (pad : Nat)
        (data : List Nat) (pos : Nat), pos % pad = 0 → data.length < pos + 4 →
      readChainedGo rd pad data pos = (Option.none : Option (List α))) ∧
    (∀ (α : Type) (wr : α → List Nat) (rd : List Nat → Nat → Option (α × Nat))
        (pad : Nat), 0 < pad →
      (∀ a pre post, ∃ n, rd (pre ++ (wr a ++ post)) pre.length = some (a, n)) →
      (∀ a, 4 + (wr a).length + pad ≤ 2 ^ 32) →
      ∀ (items : List α) (junk : List Nat), items ≠ [] →
        readChainedItemList rd pad (writeChainedItemList wr pad items ++ junk) 0 =
          some items) := by
  refine ⟨?_, ?_, ?_, ?_⟩
  · intro α rd pad data pos hpos
    rw [readChainedItemList, if_pos hpos]
  · intro α rd pad data pos hmis hpos
    rw [readChainedItemList, if_neg hpos, readChainedGo, if_pos hmis]
  · intro α rd pad data pos hal hshort
    rw [readChainedGo, if_neg (by omega)]
    split
    · rfl
    · rename_i off hoff
      rw [readU32] at hoff
      have := readLe_some_bound hoff
      omega
  · intro α wr rd pad hpad hrd hsize items junk hne
    have hlen : 4 ≤ (writeChainedItemList wr pad items).length :=
      writeChainedGo_length_ge wr pad items 0 hne
    rw [readChainedItemList, if_neg (by simp [List.length_append]; omega)]
    have := readChainedGo_of_write wr rd pad hpad hrd hsize items [] junk hne
      (by simp)
    simpa using this

/-- C4 witness: the boolean codec round-trips a three-element list with
trailing junk left unread; the empty stream, a misaligned position and an
exhausted stream behave as stated. -/
theorem chained_list_read_spec_witness :
    readChainedItemList rdBool 4 [] 0 = some [] ∧
    ((1 : Nat) % 4 ≠ 0 ∧ (1 : Nat) ≠ 3 ∧
      readChainedItemList rdBool 4 [0, 0, 0] 1 = (Option.none : Option (List Bool))) ∧
    ((0 : Nat) % 4 = 0 ∧ (2 : Nat) < 0 + 4 ∧
      readChainedGo rdBool 4 [1, 2] 0 = (Option.none : Option (List Bool))) ∧
    ([true, false, true] ≠ ([] : List Bool) ∧
      readChainedItemList rdBool 4
        (writeChainedItemList wrBool 4 [true, false, true] ++ [9, 9]) 0 =
        some [true, false, true]) :=
  ⟨chained_list_read_spec.1 Bool rdBool 4 [] 0 rfl,
   ⟨by decide, by decide,
    chained_list_read_spec.2.1 Bool rdBool 4 [0, 0, 0] 1 (by decide) (by decide)⟩,
   ⟨by decide, by decide,
    chained_list_read_spec.2.2.1 Bool rdBool 4 [1, 2] 0 (by decide) (by decide)⟩,
   ⟨by decide,
    chained_list_read_spec.2.2.2 Bool wrBool rdBool 4 (by decide)
      rdBool_reads_back (wrBool_size 4 (by decide)) [true, false, true] [9, 9]
      (by decide)⟩⟩

/-- C5: decoding a self-relative security descriptor succeeds only when
the `sacl_present` (respectively `dacl_present`) control bit agrees with
the SACL (respectively DACL) offset field being non-zero — a disagreement
is a fatal decode error — and then the decoded SACL/DACL is present
exactly when its offset (equivalently its control bit) is non-zero;
encoding likewise demands that SACL/DACL presence agree with the control
bits. -/
theorem security_descriptor_presence_spec :
    (∀ (σ α : Type) (readSid : List Nat → Nat → Option (σ × Nat))
        (readAcl : List Nat → Nat → Option (α × Nat))
        (data : List Nat) (pos : Nat) (sd : SecurityDescriptorG σ α) (p2 : Nat),
      readSecurityDescriptor readSid readAcl data pos = some (sd, p2) →
      ∃ revision sbz control oo og os od,
        readFieldsGo data pos [1, 1, 2, 4, 4, 4, 4] =
          some [revision, sbz, control, oo, og, os, od] ∧
        decide (os ≠ 0) = SecurityDescriptorControl.sacl_present control ∧
        decide (od ≠ 0) = SecurityDescriptorControl.dacl_present control ∧
        sd.control = control ∧
        sd.sacl.isSome = decide (os ≠ 0) ∧
        sd.dacl.isSome = decide (od ≠ 0)) ∧
    (∀ (σ α : Type) (writeSid : σ → List Nat) (writeAcl : α → List Nat)
        (sd : SecurityDescriptorG σ α) (bs : List Nat),
      writeSecurityDescriptor writeSid writeAcl sd = some bs →
      sd.sacl.isSome = SecurityDescriptorControl.sacl_present sd.control ∧
      sd.dacl.isSome = SecurityDescriptorControl.dacl_present sd.control) := by
  constructor
  · intro σ α readSid readAcl data pos sd p2 hr
    rw [readSecurityDescriptor] at hr
    split at hr
    case _ rv sb ct o1 o2 o3 o4 hmatch =>
      refine ⟨rv, sb, ct, o1, o2, o3, o4, hmatch, ?_⟩
      split at hr
      case isFalse => exact Option.noConfusion hr
      split at hr
      case isFalse => exact Option.noConfusion hr
      split at hr
      case _ => exact Option.noConfusion hr
      case _ owner howner =>
      split at hr
      case _ => exact Option.noConfusion hr
      case _ group hgroup =>
      split at hr
      case _ => exact Option.noConfusion hr
      case _ sacl hsacl =>
      split at hr
      case isFalse => exact Option.noConfusion hr
      case isTrue hsaclAgree =>
      split at hr
      case _ => exact Option.noConfusion hr
      case _ dacl hdacl =>
      split at hr
      case isFalse => exact Option.noConfusion hr
      case isTrue hdaclAgree =>
      obtain ⟨rfl, rfl⟩ :
          SecurityDescriptorG.mk sb ct owner.1 group.1 sacl.1 dacl.1 =
            sd ∧ dacl.2 = p2 := by
        simpa using hr
      refine ⟨hsaclAgree, hdaclAgree, rfl, ?_, ?_⟩
      · by_cases hos : o3 ≠ 0
        · rw [if_pos hos] at hsacl
          obtain ⟨r, hrr, rfl⟩ := Option.map_eq_some'.mp hsacl
          simp [hos]
        · rw [if_neg hos] at hsacl
          obtain rfl : ((Option.none : Option α), group.2) = sacl := by
            simpa using hsacl
          simp [hos]
      · by_cases hod : o4 ≠ 0
        · rw [if_pos hod] at hdacl
          obtain ⟨r, hrr, rfl⟩ := Option.map_eq_some'.mp hdacl
          simp [hod]
        · rw [if_neg hod] at hdacl
          obtain rfl : ((Option.none : Option α), sacl.2) = dacl := by
            simpa using hdacl
          simp [hod]
    case _ hother =>
      exact Option.noConfusion hr
  · intro σ α writeSid writeAcl sd bs hw
    rw [writeSecurityDescriptor] at hw
    split at hw
    · rename_i hcond
      exact ⟨hcond.2.1, hcond.2.2⟩
    · exact Option.noConfusion hw

/-- C5 witness: a control word with `self_relative` and `sacl_present`
set, SACL offset 20 and DACL offset 0 decodes with the SACL present and
the DACL absent, the two signals agreeing; the matching descriptor value
also encodes. -/
theorem security_descriptor_presence_spec_witness :
    (readSecurityDescriptor (fun _ p => some ((), p)) (fun _ p => some ((), p))
        [1, 0, 0x10, 0x80, 0, 0, 0, 0, 0, 0, 0, 0, 20, 0, 0, 0, 0, 0, 0, 0] 0 =
      some (SecurityDescriptorG.mk 0 0x8010 Option.none Option.none (some ())
        Option.none, 20) ∧
     ∃ revision sbz control oo og os od,
       readFieldsGo
           [1, 0, 0x10, 0x80, 0, 0, 0, 0, 0, 0, 0, 0, 20, 0, 0, 0, 0, 0, 0, 0] 0
           [1, 1, 2, 4, 4, 4, 4] =
         some [revision, sbz, control, oo, og, os, od] ∧
       decide (os ≠ 0) = SecurityDescriptorControl.sacl_present control ∧
       decide (od ≠ 0) = SecurityDescriptorControl.dacl_present control ∧
       (SecurityDescriptorG.mk 0 0x8010 (Option.none : Option Unit)
          (Option.none : Option Unit) (some ())
          (Option.none : Option Unit)).control = control ∧
       (SecurityDescriptorG.mk 0 0x8010 (Option.none : Option Unit)
          (Option.none : Option Unit) (some ())
          (Option.none : Option Unit)).sacl.isSome = decide (os ≠ 0) ∧
       (SecurityDescriptorG.mk 0 0x8010 (Option.none : Option Unit)
          (Option.none : Option Unit) (some ())
          (Option.none : Option Unit)).dacl.isSome = decide (od ≠ 0)) ∧
    (writeSecurityDescriptor (fun (_ : Unit) => []) (fun (_ : Unit) => [])
        (SecurityDescriptorG.mk 0 0x8010 Option.none Option.none (some ())
          Option.none) =
      some ([1, 0] ++ u16le 0x8010 ++ u32le 0 ++ u32le 0 ++ u32le 20 ++ u32le 0 ++
        [] ++ [] ++ [] ++ []) ∧
     (SecurityDescriptorG.mk 0 0x8010 (Option.none : Option Unit)
        (Option.none : Option Unit) (some ())
        (Option.none : Option Unit)).sacl.isSome =
       SecurityDescriptorControl.sacl_present 0x8010) := by
  have hr : readSecurityDescriptor (fun _ p => some ((), p)) (fun _ p => some ((), p))
      [1, 0, 0x10, 0x80, 0, 0, 0, 0, 0, 0, 0, 0, 20, 0, 0, 0, 0, 0, 0, 0] 0 =
      some (SecurityDescriptorG.mk 0 0x8010 Option.none Option.none (some ())
        Option.none, 20) := by rfl
  have hw : writeSecurityDescriptor (fun (_ : Unit) => []) (fun (_ : Unit) => [])
      (SecurityDescriptorG.mk 0 0x8010 Option.none Option.none (some ())
        Option.none) =
      some ([1, 0] ++ u16le 0x8010 ++ u32le 0 ++ u32le 0 ++ u32le 20 ++ u32le 0 ++
        [] ++ [] ++ [] ++ []) := by rfl
  have hdec := security_descriptor_presence_spec.1 Unit Unit
    (fun _ p => some ((), p)) (fun _ p => some ((), p))
    [1, 0, 0x10, 0x80, 0, 0, 0, 0, 0, 0, 0, 0, 20, 0, 0, 0, 0, 0, 0, 0] 0
    (SecurityDescriptorG.mk 0 0x8010 Option.none Option.none (some ())
      Option.none) 20 hr
  have henc := security_descriptor_presence_spec.2 Unit Unit
    (fun _ => []) (fun _ => [])
    (SecurityDescriptorG.mk 0 0x8010 Option.none Option.none (some ())
      Option.none) _ hw
  exact ⟨⟨hr, hdec⟩, ⟨hw, henc.1⟩⟩

/-- C6 witness: type 0x0004 is unknown and kills the context decode; the
GUID name of all zeroes matches no create-context catalog name. -/
theorem unknown_context_is_error_witness :
    (readU16 [0x04, 0x00] (alignUp 0 8) = some 0x04 ∧
     NegotiateContextType.fromU16 0x04 = Option.none ∧
     readNegotiateContext [0x04, 0x00] 0 = Option.none) ∧
    (CreateContextType.from_name (List.replicate 16 0) = Option.none ∧
     readCreateContextRequestData (fun _ => some 0) (List.replicate 16 0) =
       Option.none) :=
  ⟨⟨by rfl, by rfl,
    unknown_context_is_error.1 [0x04, 0x00] 0 0x04 (by rfl) (by rfl)⟩,
   ⟨by rfl,
    unknown_context_is_error.2 Nat (fun _ => some 0) (List.replicate 16 0) (by rfl)⟩⟩


end SmbRs
